import Mathlib

/-!
Verification of the email6 header-parsing engine bundled with this
repository (`email6/_encoded_words.py`, `email6/_header_value_parser.py`,
`email6/header.py`, `email6/policy.py`).

The Python sources are shallowly embedded below: Python `str` values become
`List Char`, `bytes` become `List Nat` (each entry < 256), raised exceptions
become an `Except PErr` result, and the mutually recursive grammar functions
take an explicit fuel argument (every recursive call in the source strictly
consumes input or moves down a finite call chain, so any sufficiently large
fuel computes the same answer the Python code does; the concrete theorems
below evaluate at a fixed, ample fuel).  Names follow the source.
-/

/-! ## Errors and defects

`email6/errors.py` is not among the repository files provided, only its
callers are.  Modelled from the spec: a Defect is "an immutable tagged value
describing one parsing or encoding anomaly (kind + human-readable detail)".
The kinds below are exactly the ones the four embedded source files
construct, each carrying the detail string the caller passes (the base64 and
charset defects are constructed without one).  In the upstream taxonomy none
of the other kinds is a subclass of `InvalidHeaderDefect`, so the
`isinstance(x, errors.InvalidHeaderDefect)` test in `get_mailbox` is the
`isInvalidHeader` constructor test. -/
inductive Defect where
  | invalidHeader (msg : String)
  | obsoleteHeader (msg : String)
  | nonPrintable (chars : List Char)
  | invalidBase64Padding
  | invalidBase64Characters
  | undecodableBytes
  | headerMissingRequiredValue
deriving DecidableEq, Repr

def Defect.isInvalidHeader : Defect → Bool
  | .invalidHeader _ => true
  | _ => false

/-- The Python exceptions the embedded code can raise.  `headerParse` is
`errors.HeaderParseError`, the only one the source ever catches; the others
(`IndexError` from indexing an empty string, `AssertionError`,
`ValueError`/`KeyError`/`LookupError`/`UnicodeEncodeError` from
`_encoded_words.decode`, `AttributeError`/`NameError`) propagate out of
every `try` block in the source.  `fuelOut` is the embedding's own marker
for exhausted fuel and corresponds to no Python behaviour. -/
inductive PErr where
  | headerParse
  | indexError
  | assertionError
  | valueError
  | keyError
  | lookupError
  | unicodeEncodeError
  | attributeError
  | nameError
  | typeError
  | fuelOut
deriving DecidableEq, Repr

/-- Bytes as natural numbers (all constructed values are < 256). -/
abbrev Byte := Nat

/-! ## `_encoded_words.py` -/

/-- Value of a base64 alphabet byte (`A`-`Z`, `a`-`z`, `0`-`9`, `+`, `/`),
`none` for every other byte; this is `table_a2b_base64` of CPython 3.8's
`binascii` without the special pad entry, which the callers below handle
explicitly. -/
def b64Val (b : Byte) : Option Nat :=
  if 65 ≤ b ∧ b ≤ 90 then some (b - 65)
  else if 97 ≤ b ∧ b ≤ 122 then some (b - 71)
  else if 48 ≤ b ∧ b ≤ 57 then some (b + 4)
  else if b = 43 then some 62
  else if b = 47 then some 63
  else none

def isB64Alpha (b : Byte) : Bool := (b64Val b).isSome

/-- First byte of `bs` that `binascii_find_valid` counts as valid: at most
0x7F and either in the alphabet or the pad byte `=` (61). -/
def b64FindValid (bs : List Byte) : Option Byte :=
  (bs.filter fun b => decide (b ≤ 127) && (isB64Alpha b || b = 61)).head?

/-- Loop of CPython 3.8 `binascii.a2b_base64`: skip bytes above 0x7F and
`\r`, `\n`, space; skip a pad at quad position 0 or 1, and a pad at quad
position 2 whose next valid byte is not another pad; otherwise a pad ends
the input with no leftover bits.  Alphabet bytes accumulate six bits each,
emitting a byte whenever eight are available.  Leftover bits at the end of
input mean `binascii.Error` (modelled as `Except.error ()`). -/
def a2bLoop : List Byte → Nat → Nat → Nat → List Byte → Except Unit (List Byte)
  | [], _, _, leftbits, out => if leftbits = 0 then .ok out else .error ()
  | b :: rest, quadPos, leftchar, leftbits, out =>
    if b > 127 ∨ b = 13 ∨ b = 10 ∨ b = 32 then
      a2bLoop rest quadPos leftchar leftbits out
    else if b = 61 then
      if quadPos < 2 ∨ (quadPos = 2 ∧ b64FindValid rest ≠ some 61) then
        a2bLoop rest quadPos leftchar leftbits out
      else .ok out
    else match b64Val b with
      | none => a2bLoop rest quadPos leftchar leftbits out
      | some v =>
        let quadPos := (quadPos + 1) % 4
        let leftchar := leftchar * 64 + v
        let leftbits := leftbits + 6
        if leftbits ≥ 8 then
          let leftbits := leftbits - 8
          a2bLoop rest quadPos (leftchar % 2 ^ leftbits) leftbits
            (out ++ [leftchar / 2 ^ leftbits % 256])
        else a2bLoop rest quadPos leftchar leftbits out

def a2b_base64 (bs : List Byte) : Except Unit (List Byte) := a2bLoop bs 0 0 0 []

/-- The `validate=True` check of `base64.b64decode`: full match of
`[A-Za-z0-9+/]*={0,2}`. -/
def b64RegexOk (bs : List Byte) : Bool :=
  let rest := bs.drop (bs.takeWhile isB64Alpha).length
  rest = [] || rest = [61] || rest = [61, 61]

def b64decode (bs : List Byte) (validate : Bool) : Except Unit (List Byte) :=
  if validate ∧ ¬ b64RegexOk bs then .error () else a2b_base64 bs

/-- Byte-wise `bytes.replace(b'_', b' ')` of `decode_q`. -/
def qUnderscore (bs : List Byte) : List Byte :=
  bs.map fun b => if b = 95 then 32 else b

def isHexByte (b : Byte) : Bool :=
  (48 ≤ b ∧ b ≤ 57) ∨ (97 ≤ b ∧ b ≤ 102) ∨ (65 ≤ b ∧ b ≤ 70)

def hexByteVal (b : Byte) : Nat :=
  if b ≤ 57 then b - 48 else if b ≤ 70 then b - 55 else b - 87

/-- The `_q_byte_subber` substitution: each `=HH` (two hex digits) becomes
the byte `0xHH`, scanning left to right without overlap. -/
def qSub : List Byte → List Byte
  | [] => []
  | 61 :: h1 :: h2 :: rest =>
    if isHexByte h1 ∧ isHexByte h2 then
      (hexByteVal h1 * 16 + hexByteVal h2) :: qSub rest
    else 61 :: qSub (h1 :: h2 :: rest)
  | b :: rest => b :: qSub rest

def decode_q (encoded : List Byte) : List Byte × List Defect :=
  (qSub (qUnderscore encoded), [])

def decode_b (encoded : List Byte) : Except PErr (List Byte × List Defect) :=
  let padErr := encoded.length % 4
  let defects : List Defect :=
    if padErr ≠ 0 then [.invalidBase64Padding] else []
  let padded :=
    if padErr ≠ 0 then encoded ++ List.replicate (4 - padErr) 61 else encoded
  match b64decode padded true with
  | .ok out => .ok (out, defects)
  | .error _ =>
    -- retry loop `for i in 0, 1, 2, 3`, whose for-else raises AssertionError
    let defects : List Defect := [.invalidBase64Characters]
    match b64decode encoded false with
    | .ok out => .ok (out, defects)
    | .error _ =>
      let defects := defects ++ [.invalidBase64Padding]
      match b64decode (encoded ++ [61]) false with
      | .ok out => .ok (out, defects)
      | .error _ =>
        match b64decode (encoded ++ [61, 61]) false with
        | .ok out => .ok (out, defects)
        | .error _ =>
          match b64decode (encoded ++ [61, 61, 61]) false with
          | .ok out => .ok (out, defects)
          | .error _ => .error .assertionError

/-- Python `str.encode('ascii', 'surrogateescape')`.  Lean characters are
Unicode scalar values, so no lone surrogate (the only thing the
`surrogateescape` handler rescues) can occur and every character at 128 or
above raises `UnicodeEncodeError`, exactly as in Python. -/
def encodeAsciiSE : List Char → Except PErr (List Byte)
  | [] => .ok []
  | c :: rest =>
    if c.toNat < 128 then do
      let bs ← encodeAsciiSE rest
      .ok (c.toNat :: bs)
    else .error .unicodeEncodeError

def lowerStr (s : List Char) : List Char := s.map Char.toLower

/-- Codec-name lookup is case-insensitive in Python; the engine's test data
uses the ASCII charset, so the embedding's codec registry knows `us-ascii`
and its alias `ascii` (the charset module itself is outside the provided
sources).  An unknown name raises `LookupError`, which `decode` does not
catch. -/
def knownCharset (name : List Char) : Bool :=
  lowerStr name = "us-ascii".data || lowerStr name = "ascii".data

/-- Python `bytes.decode('us-ascii')`: `none` models `UnicodeDecodeError`. -/
def asciiDecode (bs : List Byte) : Option (List Char) :=
  if bs.all (· < 128) then some (bs.map Char.ofNat) else none

/-- Python `bytes.decode('us-ascii', 'replace')`. -/
def asciiDecodeReplace (bs : List Byte) : List Char :=
  bs.map fun b => if b < 128 then Char.ofNat b else '�'

/-- `_encoded_words.decode`: split the encoded word on `?` into exactly five
fields (else the tuple unpacking raises `ValueError`), CTE-decode with the
`q` or `b` decoder (an unknown CTE letter raises `KeyError`), then decode
the bytes with the named charset, degrading to replacement characters with
an `UndecodableBytesDefect` when the charset cannot decode them. -/
def ew_decode (ew : List Char) : Except PErr (List Char × List Defect) := do
  match ew.splitOn '?' with
  | [_, charset, cte, cteString, _] =>
    let cte := lowerStr cte
    let bstring ← encodeAsciiSE cteString
    let (bs, defects) ←
      if cte = "q".data then .ok (decode_q bstring)
      else if cte = "b".data then decode_b bstring
      else .error .keyError
    if knownCharset charset then
      match asciiDecode bs with
      | some s => .ok (s, defects)
      | none => .ok (asciiDecodeReplace bs, defects ++ [.undecodableBytes])
    else .error .lookupError
  | _ => .error .valueError

/-! ## Token tree model (`_header_value_parser.py`, classes)

A `Token.node` records both the Python class of the `TokenList` instance
(`NodeKind`, which selects the behaviour of `value`, `str` and the
accessors, as Python method resolution does) and the current `token_type`
attribute, which the parser mutates on some nodes (`'invalid-mailbox'`,
`'invalid-obs-local-part'`) and which the property code inspects.
`Token.term` covers `ValueTerminal` (`ws = false`) and `WhiteSpaceTerminal`
(`ws = true`).  `Token.defectTok` is a `Defect` instance appended as a
child, which `_check_for_early_dl_end` really does (source line 1098). -/
inductive NodeKind where
  | tokenList
  | unstructured
  | phrase
  | cfws
  | atom
  | quotedString
  | bareQuotedString
  | comment
  | addressList
  | address
  | mailboxList
  | groupList
  | group
  | nameAddr
  | angleAddr
  | obsRoute
  | mailbox
  | invalidMailbox
  | domain
  | dotAtom
  | dotAtomText
  | addrSpec
  | obsLocalPart
  | displayName
  | localPart
  | domainLiteral
deriving DecidableEq, Repr

inductive Token where
  | term (ws : Bool) (s : List Char) (ttype : String) (defects : List Defect)
  | node (kind : NodeKind) (ttype : String) (children : List Token) (defects : List Defect)
  | defectTok (d : Defect)

def NodeKind.defaultTType : NodeKind → String
  | .tokenList => ""
  | .unstructured => "unstructured"
  | .phrase => "phrase"
  | .cfws => "cfws"
  | .atom => "atom"
  | .quotedString => "quoted-string"
  | .bareQuotedString => "bare-quoted-string"
  | .comment => "comment"
  | .addressList => "address-list"
  | .address => "address"
  | .mailboxList => "mailbox-list"
  | .groupList => "group-list"
  | .group => "group"
  | .nameAddr => "name-addr"
  | .angleAddr => "angle-addr"
  | .obsRoute => "obs-route"
  | .mailbox => "mailbox"
  | .invalidMailbox => "invalid-mailbox"
  | .domain => "domain"
  | .dotAtom => "dot-atom"
  | .dotAtomText => "dot-atom-text"
  | .addrSpec => "addr-spec"
  | .obsLocalPart => "obs-local-part"
  | .displayName => "display-name"
  | .localPart => "local-part"
  | .domainLiteral => "domain-literal"

/-- Fresh composite node with its class's own `token_type`. -/
def mkNode (k : NodeKind) (cs : List Token) (d : List Defect) : Token :=
  .node k k.defaultTType cs d

def mkVT (s : List Char) (tt : String) : Token := .term false s tt []

def mkWS (s : List Char) (tt : String) : Token := .term true s tt []

def Token.ttype : Token → String
  | .term _ _ tt _ => tt
  | .node _ tt _ _ => tt
  | .defectTok _ => ""

def Token.defects : Token → List Defect
  | .term _ _ _ d => d
  | .node _ _ _ d => d
  | .defectTok _ => []

def Token.childList : Token → List Token
  | .node _ _ cs _ => cs
  | _ => []

/-- Detail string an `errors` defect instance renders as (`str(defect)`). -/
def defectMsg : Defect → List Char
  | .invalidHeader m => m.data
  | .obsoleteHeader m => m.data
  | .nonPrintable cs => cs
  | _ => []

def quote_string (s : List Char) : List Char :=
  '"' :: ((s.map fun c =>
    if c = '\\' then ['\\', '\\'] else if c = '"' then ['\\', '"'] else [c]).flatten ++ ['"'])

/-- The escaping `Comment.quote` applies to a non-comment child's string. -/
def escapeParens (s : List Char) : List Char :=
  (s.map fun c =>
    if c = '\\' then ['\\', '\\']
    else if c = '(' then ['\\', '(']
    else if c = ')' then ['\\', ')'] else [c]).flatten

/-- Python whitespace as `str.split`/`strip` see it, restricted to the
characters representable here. -/
def pyIsSpace (c : Char) : Bool :=
  c = ' ' ∨ c = '\t' ∨ c = '\n' ∨ c = '\r' ∨ c = '\x0b' ∨ c = '\x0c' ∨
    c = '\x1c' ∨ c = '\x1d' ∨ c = '\x1e' ∨ c = '\x85' ∨ c = '\xa0'

def pyLstrip (s : List Char) : List Char := s.dropWhile pyIsSpace

def pyRstrip (s : List Char) : List Char := (s.reverse.dropWhile pyIsSpace).reverse

mutual

/-- Python `str(token)`.  `Terminal` is a `str` subclass holding the raw
text; `TokenList.__str__` concatenates the children's strings;
`BareQuotedString.__str__` re-quotes; `Comment.__str__` wraps in parens and
escapes non-comment children. -/
def tokenStr : Token → List Char
  | .term _ s _ _ => s
  | .node k _ cs _ =>
    match k with
    | .bareQuotedString => quote_string (tokensStr cs)
    | .comment => '(' :: (tokensCommentQuote cs ++ [')'])
    | _ => tokensStr cs
  | .defectTok d => defectMsg d

def tokensStr : List Token → List Char
  | [] => []
  | t :: ts => tokenStr t ++ tokensStr ts

def tokensCommentQuote : List Token → List Char
  | [] => []
  | t :: ts =>
    (if Token.ttype t = "comment" then tokenStr t else escapeParens (tokenStr t)) ++
      tokensCommentQuote ts

end

/-- Per-node annotation computed bottom-up.  It records everything the
Python property code reads off a token: its `token_type`, whether it is a
composite node and how many children it has, the `token_type` of the first
and last child (what `self[0][0].token_type` and `self[-1][-1].token_type`
inspect), the class-dispatched `value`, the raw `str`, the
`QuotedString.quoted_value`, and the generic concatenated child values
with the first and/or the last child removed, which the cfws-stripping
`res[0] = TokenList(res[0][1:])` / `res[-1] = TokenList(res[-1][:-1])`
dance of `DisplayName.display_name` and `LocalPart.local_part` produces. -/
structure Ann where
  ttype : String
  isNode : Bool
  childCount : Nat
  firstChildTT : String
  lastChildTT : String
  value : List Char
  str : List Char
  quotedValue : List Char
  genTail : List Char
  genDropLast : List Char
  genTailDropLast : List Char
deriving Repr

/-- Generic `TokenList.value` over annotated children: the concatenation of
the children's values (the generator filter `if x.value` in the source only
skips empty strings and does not change the concatenation). -/
def annsValue (cas : List Ann) : List Char := (cas.map Ann.value).flatten

/-- `res.value` after the cfws-stripping dance of
`DisplayName.display_name` / `LocalPart.local_part` (source lines 485-496
and 531-542), over the annotated elements of the `res` list: a leading
`cfws` element is dropped, otherwise a leading `cfws` child of the first
element is dropped; symmetrically at the tail; the remaining elements
contribute their values.  Where Python would raise (`IndexError` on an
empty list, `AttributeError`/`IndexError` probing `res[0][0]` of a
terminal or childless element) the embedding leaves the element untrimmed;
no computation below reaches those corners. -/
def danceBack : List Ann → List Char
  | [] => []
  | [a] =>
    if a.ttype = "cfws" then []
    else if a.isNode ∧ 0 < a.childCount ∧ a.lastChildTT = "cfws" then a.genDropLast
    else a.value
  | a :: a' :: rest => a.value ++ danceBack (a' :: rest)

def danceValue (cas : List Ann) : List Char :=
  match cas with
  | [] => []
  | a0 :: rest =>
    if a0.ttype = "cfws" then danceBack rest
    else if a0.isNode ∧ 0 < a0.childCount ∧ a0.firstChildTT = "cfws" then
      match rest with
      | [] =>
        -- the sole element, rewrapped as `TokenList(res[0][1:])`, is then
        -- tail-trimmed: its new last child is the old one when it has ≥ 2
        if 2 ≤ a0.childCount ∧ a0.lastChildTT = "cfws" then a0.genTailDropLast
        else a0.genTail
      | _ :: _ => a0.genTail ++ danceBack rest
    else
      match rest with
      | [] =>
        if a0.isNode ∧ 0 < a0.childCount ∧ a0.lastChildTT = "cfws" then a0.genDropLast
        else a0.value
      | _ :: _ => a0.value ++ danceBack rest

/-- The `self[0].token_type=='cfws' or self[0][0].token_type=='cfws'` test
of `DisplayName.value` (and its mirror on the last element). -/
def dnEndCfws : Option Ann → Bool
  | none => false
  | some a => a.ttype = "cfws" || (0 < a.childCount ∧ a.firstChildTT = "cfws")

def dnEndCfwsLast : Option Ann → Bool
  | none => false
  | some a => a.ttype = "cfws" || (0 < a.childCount ∧ a.lastChildTT = "cfws")

mutual

/-- Annotation of one token.  The `value` field is Python `token.value`,
dispatched on the node's class exactly as the source's property overrides
are: whitespace classes (`CFWSList`, `Comment`, `WhiteSpaceTerminal`)
yield one space, `BareQuotedString` joins the children's *strings*
(whitespace between the quote marks preserved), `AddrSpec` strips
whitespace around the `@`, `LocalPart` takes its first child's value (the
`quoted_value` for a quoted string), `DisplayName` re-quotes when it has
defects or a quoted-string child, and every other class concatenates the
children's values. -/
def tokenAnn : Token → Ann
  | .term ws s tt _ =>
    { ttype := tt, isNode := false, childCount := 0, firstChildTT := "",
      lastChildTT := "", value := if ws then [' '] else s, str := s,
      quotedValue := s, genTail := [], genDropLast := [], genTailDropLast := [] }
  | .defectTok dd =>
    -- a Defect instance among the children: `str` renders its detail text;
    -- reading `.value`/`.token_type` off it would raise in Python (no
    -- computation below does)
    { ttype := "", isNode := false, childCount := 0, firstChildTT := "",
      lastChildTT := "", value := [], str := defectMsg dd,
      quotedValue := [], genTail := [], genDropLast := [], genTailDropLast := [] }
  | .node k tt cs d =>
    let cas := tokensAnn cs
    let value :=
      match k with
      | .cfws => [' ']
      | .comment => [' ']
      | .bareQuotedString => (cas.map Ann.str).flatten
      | .addrSpec =>
        match cas with
        | [] => []   -- Python: `self[0]` raises IndexError (no parse builds this)
        | [a0] => a0.value   -- `len(self) < 3`: `self[0].value`
        | [a0, _] => a0.value
        | a0 :: a1 :: a2 :: _ =>
          pyRstrip a0.value ++ a1.value ++ pyLstrip a2.value
      | .localPart =>
        match cas with
        | [] => []   -- Python: IndexError
        | a0 :: _ =>
          if a0.ttype = "quoted-string" then a0.quotedValue else a0.value
      | .displayName =>
        if d ≠ [] ∨ cas.any fun a => a.ttype = "quoted-string" then
          (if dnEndCfws cas.head? then [' '] else []) ++
            quote_string (danceValue cas) ++
            (if dnEndCfwsLast cas.getLast? then [' '] else [])
        else annsValue cas
      | _ => annsValue cas
    { ttype := tt, isNode := true, childCount := cas.length,
      firstChildTT := ((cas.head?).map Ann.ttype).getD "",
      lastChildTT := ((cas.getLast?).map Ann.ttype).getD "",
      value := value, str := tokenStr (.node k tt cs d),
      quotedValue :=
        (cas.map fun a =>
          if a.ttype = "bare-quoted-string" then a.str else a.value).flatten,
      genTail := annsValue cas.tail,
      genDropLast := annsValue cas.dropLast,
      genTailDropLast := annsValue cas.tail.dropLast }

def tokensAnn : List Token → List Ann
  | [] => []
  | t :: ts => tokenAnn t :: tokensAnn ts

end

/-- Python `token.value`. -/
def tokenValue (t : Token) : List Char := (tokenAnn t).value

/-- Generic concatenation of the values of a list of tokens. -/
def tokensValue (ts : List Token) : List Char := annsValue (tokensAnn ts)

mutual

/-- `all_defects`: `TokenList.all_defects` is
`sum((x.all_defects for x in self), self.defects)`, i.e. the node's own
defect list followed by the children's combined lists, the children
evaluated left to right; `Terminal.all_defects` is a copy of the local
list.  A `Defect` instance appended among the children
(`_check_for_early_dl_end` really does this) has no `all_defects`
attribute, so reaching one raises `AttributeError`. -/
def allDefects : Token → Except PErr (List Defect)
  | .term _ _ _ d => .ok d
  | .node _ _ cs d =>
    match allDefectsList cs with
    | .ok ds => .ok (d ++ ds)
    | .error e => .error e
  | .defectTok _ => .error .attributeError

def allDefectsList : List Token → Except PErr (List Defect)
  | [] => .ok []
  | t :: ts =>
    match allDefects t with
    | .error e => .error e
    | .ok a =>
      match allDefectsList ts with
      | .ok b => .ok (a ++ b)
      | .error e => .error e

end

/-- `AddressList.addresses`. -/
def tok_addresses (t : Token) : List Token :=
  match t with
  | .node .addressList _ cs _ => cs.filter fun x => Token.ttype x = "address"
  | _ => []

/-- `mailboxes` as defined on `MailboxList`, `GroupList`, `Group` and
`Address` (dispatch on the node's class, tests on `token_type`). -/
def tok_mailboxes (t : Token) : Except PErr (List Token) :=
  match t with
  | .node .mailboxList _ cs _ => .ok (cs.filter fun x => Token.ttype x = "mailbox")
  | .node .groupList _ cs _ =>
    match cs with
    | [] => .ok []
    | c0 :: _ => if Token.ttype c0 = "mailbox-list" then tok_mailboxes c0 else .ok []
  | .node .group _ cs _ =>
    match cs with
    | _ :: _ :: c2 :: _ => if Token.ttype c2 = "group-list" then tok_mailboxes c2 else .ok []
    | _ => .error .indexError
  | .node .address _ cs _ =>
    match cs with
    | c0 :: _ =>
      if Token.ttype c0 = "mailbox" then .ok [c0]
      else if Token.ttype c0 = "invalid-mailbox" then .ok []
      else tok_mailboxes c0
    | [] => .error .indexError
  | _ => .error .attributeError

/-- `all_mailboxes` on the same classes. -/
def tok_all_mailboxes (t : Token) : Except PErr (List Token) :=
  match t with
  | .node .mailboxList _ cs _ =>
    .ok (cs.filter fun x => Token.ttype x = "mailbox" ∨ Token.ttype x = "invalid-mailbox")
  | .node .groupList _ cs _ =>
    match cs with
    | [] => .ok []
    | c0 :: _ => if Token.ttype c0 = "mailbox-list" then tok_all_mailboxes c0 else .ok []
  | .node .group _ cs _ =>
    match cs with
    | _ :: _ :: c2 :: _ =>
      if Token.ttype c2 = "group-list" then tok_all_mailboxes c2 else .ok []
    | _ => .error .indexError
  | .node .address _ cs _ =>
    match cs with
    | c0 :: _ =>
      if Token.ttype c0 = "mailbox" then .ok [c0]
      else if Token.ttype c0 = "invalid-mailbox" then .ok [c0]
      else tok_all_mailboxes c0
    | [] => .error .indexError
  | _ => .error .attributeError

/-! ## Accessor layer (`display_name`, `local_part`, `domain` properties)

Class-dispatched like the source's properties.  A class without the
property raises `AttributeError`; `self[0]`/`self[-1]` on an empty node
raises `IndexError`; probing `token_type` of a character of a `Terminal`
raises `AttributeError`.  `InvalidMailbox` aliases all of them to the
`display_name` property that returns `None`. -/
mutual

def acc_display_name : Token → Except PErr (Option (List Char))
  | .node .displayName _ cs _ => .ok (some (danceValue (tokensAnn cs)))
  | .node .nameAddr _ cs _ =>
    match cs with
    | [] => .error .indexError
    | [_] => .ok none
    | c0 :: _ :: _ => acc_display_name c0
  | .node .mailbox _ cs _ =>
    match cs with
    | c0 :: _ => if Token.ttype c0 = "name-addr" then acc_display_name c0 else .ok none
    | [] => .error .indexError
  | .node .invalidMailbox _ _ _ => .ok none
  | .node .address _ cs _ =>
    match cs with
    | c0 :: _ => if Token.ttype c0 = "group" then acc_display_name c0 else .ok none
    | [] => .error .indexError
  | .node .group _ cs _ =>
    match cs with
    | c0 :: _ => acc_display_name c0
    | [] => .error .indexError
  | _ => .error .attributeError

end

mutual

def acc_local_part : Token → Except PErr (Option (List Char))
  | .node .localPart _ cs _ =>
    match cs with
    | c0 :: _ =>
      match c0 with
      | .node _ _ gs _ => .ok (some (danceValue (tokensAnn gs)))
      | _ => .error .attributeError   -- `TokenList(self[0])` over a str, then `.token_type` on a char
    | [] => .error .indexError
  | .node .nameAddr _ cs _ => acc_local_part_last cs
  | .node .angleAddr _ cs _ => acc_local_part_find cs
  | .node .mailbox _ cs _ =>
    match cs with
    | c0 :: _ => acc_local_part c0
    | [] => .error .indexError
  | .node .invalidMailbox _ _ _ => .ok none
  | .node .addrSpec _ cs _ =>
    match cs with
    | c0 :: _ => acc_local_part c0
    | [] => .error .indexError
  | _ => .error .attributeError

/-- `self[-1].local_part` of `NameAddr`. -/
def acc_local_part_last : List Token → Except PErr (Option (List Char))
  | [] => .error .indexError
  | [t] => acc_local_part t
  | _ :: t :: ts => acc_local_part_last (t :: ts)

/-- The `for x in self: if x.token_type == 'addr-spec'` search of
`AngleAddr.local_part` (falls through to `None`). -/
def acc_local_part_find : List Token → Except PErr (Option (List Char))
  | [] => .ok none
  | t :: ts => if Token.ttype t = "addr-spec" then acc_local_part t else acc_local_part_find ts

end

mutual

def acc_domain : Token → Except PErr (Option (List Char))
  | .node .domain _ cs _ =>
    .ok (some ((annsValue (tokensAnn cs)).filter fun c => ¬ pyIsSpace c))
  | .node .domainLiteral _ cs _ =>
    .ok (some ((annsValue (tokensAnn cs)).filter fun c => ¬ pyIsSpace c))
  | .node .nameAddr _ cs _ => acc_domain_last cs
  | .node .angleAddr _ cs _ => acc_domain_find cs
  | .node .mailbox _ cs _ =>
    match cs with
    | c0 :: _ => acc_domain c0
    | [] => .error .indexError
  | .node .invalidMailbox _ _ _ => .ok none
  | .node .addrSpec _ cs _ =>
    match cs with
    | _ :: _ :: c2 :: rest => acc_domain_last (c2 :: rest)
    | _ => .ok none   -- `if len(self) < 3: return None`
  | _ => .error .attributeError

def acc_domain_last : List Token → Except PErr (Option (List Char))
  | [] => .error .indexError
  | [t] => acc_domain t
  | _ :: t :: ts => acc_domain_last (t :: ts)

def acc_domain_find : List Token → Except PErr (Option (List Char))
  | [] => .ok none
  | t :: ts => if Token.ttype t = "addr-spec" then acc_domain t else acc_domain_find ts

end

/-! ## Parser (`_header_value_parser.py`, `get_*` functions)

Character classes from the module head. -/

def WSPchar (c : Char) : Bool := c = ' ' ∨ c = '\t'

def CFWS_LEADER (c : Char) : Bool := WSPchar c ∨ c = '('

def SPECIALSchar (c : Char) : Bool :=
  c = '(' ∨ c = ')' ∨ c = '<' ∨ c = '>' ∨ c = '@' ∨ c = ',' ∨ c = ':' ∨
    c = ';' ∨ c = '.' ∨ c = '\\' ∨ c = '"' ∨ c = '[' ∨ c = ']'

def ATOM_ENDS (c : Char) : Bool := SPECIALSchar c ∨ WSPchar c

/-- `PHRASE_ENDS = SPECIALS - set('."(')`. -/
def PHRASE_ENDS (c : Char) : Bool :=
  SPECIALSchar c ∧ ¬ (c = '.' ∨ c = '"' ∨ c = '(')

/-- `_wsp_splitter(value, 1)`: split at the first run of WSP characters,
`none` when there is none (Python then returns the one-element list, and the
callers' three-way unpacking raises `ValueError`, which they catch). -/
def wspSplit1 (value : List Char) : Option (List Char × List Char × List Char) :=
  let tok := value.takeWhile fun c => ¬ WSPchar c
  let rest := value.drop tok.length
  match rest with
  | [] => none
  | _ =>
    let ws := rest.takeWhile WSPchar
    some (tok, ws, rest.drop ws.length)

/-- Scanner loop of `_get_ptext_to_endchars` over the first
whitespace-delimited fragment: a backslash escapes the next character (a
pending escape at the end of the fragment is silently dropped, and an
escaped backslash is appended because `\` is in none of the end-character
sets used), an unescaped end character stops the scan.  Returns the
unquoted text, the unconsumed fragment part, and the had-quoted-pair
flag. -/
def ptextLoop (endchars : List Char) :
    List Char → Bool → Bool → List Char → List Char × List Char × Bool
  | [], _, hq, acc => (acc, [], hq)
  | c :: rest, escape, hq, acc =>
    if c = '\\' then
      if escape then ptextLoop endchars rest false true (acc ++ ['\\'])
      else ptextLoop endchars rest true hq acc
    else if escape then ptextLoop endchars rest false hq (acc ++ [c])
    else if endchars.contains c then (acc, c :: rest, hq)
    else ptextLoop endchars rest false hq (acc ++ [c])

/-- `_get_ptext_to_endchars`.  On an empty fragment (input empty or starting
with whitespace) the `for`/`else` executes `pos = pos + 1` with `pos` never
bound, a `NameError`; no caller reaches that state on the inputs used
below. -/
def get_ptext_to_endchars (value : List Char) (endchars : List Char) :
    Except PErr (List Char × List Char × Bool) :=
  let (fragment, wsrest) :=
    match wspSplit1 value with
    | some (tok, ws, rest) => (tok, ws ++ rest)
    | none => (value, [])
  match fragment with
  | [] => .error .nameError
  | _ =>
    let (ptext, fragRest, hq) := ptextLoop endchars fragment false false []
    .ok (ptext, fragRest ++ wsrest, hq)

/-- `_non_printable_finder`: the characters matched by `[\x00-\x20\x7F]`,
in order. -/
def nonPrintables (s : List Char) : List Char :=
  s.filter fun c => c.toNat ≤ 32 ∨ c.toNat = 127

/-- `_validate_xtext`: the defects it appends to the token. -/
def validate_xtext (s : List Char) : List Defect :=
  let nps := nonPrintables s
  if nps = [] then [] else [.nonPrintable nps]

/-- `utils._has_surrogates`, always false on Unicode scalar strings. -/
def _has_surrogates (s : List Char) : Bool :=
  s.any fun c => 0xD800 ≤ c.toNat ∧ c.toNat ≤ 0xDFFF

/-- `_sanitize` (never invoked here: see `_has_surrogates`). -/
def _sanitize (s : List Char) : List Char :=
  s.map fun c => if 128 ≤ c.toNat then '�' else c

def DOTtok : Token := mkVT ['.'] "dot"

def ListSeparator : Token := mkVT [','] "list-separator"

def RouteComponentMarker : Token := mkVT ['@'] "route-component-marker"

def get_fws (value : List Char) : Token × List Char :=
  let newvalue := value.dropWhile pyIsSpace   -- `value.lstrip()`
  (mkWS (value.take (value.length - newvalue.length)) "fws", newvalue)

def get_qp_ctext (value : List Char) : Except PErr (Token × List Char) := do
  let (ptext, value, _) ← get_ptext_to_endchars value ['(', ')']
  .ok (.term true ptext "ptext" (validate_xtext ptext), value)

def get_qcontent (value : List Char) : Except PErr (Token × List Char) := do
  let (ptext, value, _) ← get_ptext_to_endchars value ['"']
  .ok (.term false ptext "ptext" (validate_xtext ptext), value)

def get_atext (value : List Char) : Except PErr (Token × List Char) :=
  let atext := value.takeWhile fun c => ¬ ATOM_ENDS c
  match atext with
  | [] => .error .headerParse
  | _ => .ok (.term false atext "atext" (validate_xtext atext), value.drop atext.length)

def get_dtext (value : List Char) : Except PErr (Token × List Char) := do
  let (ptext, value, had_qp) ← get_ptext_to_endchars value ['[', ']']
  let defects :=
    (if had_qp then [Defect.obsoleteHeader "quoted printable found in domain-literal"]
     else []) ++ validate_xtext ptext
  .ok (.term false ptext "ptext" defects, value)

/-- `token[:0] = [leader]`: splice an optional leading cfws into the
children of a composite token. -/
def spliceLeader (leader : Option Token) (t : Token) : Token :=
  match leader, t with
  | some l, .node k tt cs d => .node k tt (l :: cs) d
  | _, t => t

/-- `except errors.HeaderParseError`: `HeaderParseError` is caught, every
other exception propagates. -/
def tryHP {α : Type} (x : Except PErr α) : Except PErr (Option α) :=
  match x with
  | .ok a => .ok (some a)
  | .error .headerParse => .ok none
  | .error e => .error e

/-- `mailbox.token_type = ...` attribute assignment. -/
def setTType (tt : String) : Token → Token
  | .node k _ cs d => .node k tt cs d
  | .term ws s _ d => .term ws s tt d
  | t => t

/-- `tok.startswith('=?') and tok.endswith('?=')` (the two may overlap,
so `=?=` fails only the `endswith` half). -/
def looksLikeEW (tok : List Char) : Bool :=
  tok.take 2 = ['=', '?'] ∧ (tok.reverse.take 2) = ['=', '?']

/-- `token[0][:0] = [leader]` of `get_name_addr`: splice the leader into the
first child of the display-name.  On an empty display-name Python's
`token[0]` raises `IndexError`; on a `Terminal` first child the slice
assignment raises `TypeError`. -/
def spliceIntoFirstChild (l : Token) (t : Token) : Except PErr Token :=
  match t with
  | .node k tt (c0 :: cs) d =>
    match c0 with
    | .node k0 tt0 cs0 d0 => .ok (.node k tt (.node k0 tt0 (l :: cs0) d0 :: cs) d)
    | _ => .error .typeError
  | .node _ _ [] _ => .error .indexError
  | _ => .error .typeError

/-- The crap-after-mailbox fixup of `get_mailbox_list`:
`mailbox = mailbox_list[-1]; mailbox.token_type = 'invalid-mailbox';
mailbox.extend(token)`. -/
def retagExtendLast (acc : List Token) (extra : List Token) : Except PErr (List Token) :=
  match acc.getLast? with
  | some (.node k _ cs d) => .ok (acc.dropLast ++ [.node k "invalid-mailbox" (cs ++ extra) d])
  | some _ => .error .attributeError   -- `.extend` on a str Terminal
  | none => .error .indexError

/-- The crap-after-address fixup of `get_address_list`, which retags and
extends `address_list[-1][0]` (the token inside the last address). -/
def retagExtendLastInner (acc : List Token) (extra : List Token) : Except PErr (List Token) :=
  match acc.getLast? with
  | some (.node k tt (c0 :: cs) d) =>
    match c0 with
    | .node k0 _ cs0 d0 =>
      .ok (acc.dropLast ++ [.node k tt (.node k0 "invalid-mailbox" (cs0 ++ extra) d0 :: cs) d])
    | _ => .error .attributeError
  | some (.node _ _ [] _) => .error .indexError
  | some _ => .error .attributeError
  | none => .error .indexError

/-- Loop of `_decode_ew_run`: decode a run of encoded-word tokens,
discarding the whitespace between them; stop at the first token that does
not look like an encoded word, giving back the whitespace that preceded
it. -/
def ewRunLoop : Nat → List Char → List Char → List Defect → List Char →
    Except PErr (List Char × List Char × List Defect)
  | 0, _, _, _, _ => .error .fuelOut
  | n + 1, value, res, defects, last_ws =>
    match value with
    | [] => .ok (res, last_ws, defects)
    | _ =>
      let (tok, ws, rest) :=
        match wspSplit1 value with
        | some x => x
        | none => (value, [], [])
      if ¬ looksLikeEW tok then .ok (res, last_ws ++ tok ++ ws ++ rest, defects)
      else do
        let (text, newDefects) ← ew_decode tok
        ewRunLoop n rest (res ++ text) (defects ++ newDefects) ws

def _decode_ew_run (n : Nat) (value : List Char) :
    Except PErr (List Char × List Char × List Defect) :=
  ewRunLoop n value [] [] []

/-- Loop of `get_unstructured`. -/
def unstrLoop : Nat → List Char → List Token → List Defect → List Char →
    Except PErr Token
  | 0, _, _, _, _ => .error .fuelOut
  | n + 1, value, acc, defects, last_ws =>
    match value with
    | [] =>
      .ok (.node .unstructured "unstructured"
        (acc ++ if last_ws ≠ [] then [mkWS last_ws "fws"] else []) defects)
    | _ =>
      let (tok, ws, rest) :=
        match wspSplit1 value with
        | some x => x
        | none => (value, [], [])
      if tok = [] then
        let last_ws := last_ws ++ ws
        match rest with
        | [] =>
          .ok (.node .unstructured "unstructured"
            (acc ++ if last_ws ≠ [] then [mkWS last_ws "fws"] else []) defects)
        | _ => unstrLoop n rest acc defects last_ws
      else if looksLikeEW tok then do
        let (text, value2, newDefects) ← _decode_ew_run n (tok ++ ws ++ rest)
        unstrLoop n (text ++ value2) acc (defects ++ newDefects) last_ws
      else
        let acc := acc ++ (if last_ws ≠ [] then [mkWS last_ws "fws"] else [])
        let tok := if _has_surrogates tok then _sanitize tok else tok
        let acc := acc ++ [.term false tok "vtext" (validate_xtext tok)]
        unstrLoop n rest acc defects ws

def get_unstructured (n : Nat) (value : List Char) : Except PErr Token :=
  unstrLoop n value [] [] []

/-- End of the `get_dot_atom_text` loop: `if dot_atom_text[-1] is DOT:
raise`.  Only the appended `DOT` singleton can have token type `dot`, so
the identity test is the type test. -/
def datFinish (acc : List Token) (value : List Char) :
    Except PErr (Token × List Char) :=
  match acc.getLast? with
  | some t =>
    if Token.ttype t = "dot" then .error .headerParse
    else .ok (mkNode .dotAtomText acc [], value)
  | none => .error .indexError

/-! ## The mutually recursive address grammar

Every function takes a fuel argument consumed at each call; the source's
recursion always either consumes input or steps down a finite chain of
productions, so a fuel larger than a small multiple of the input length
never runs out (the concrete theorems below use an ample fixed fuel, and
`PErr.fuelOut` never occurs in their results). -/
mutual

/-- Guarded optional leading/trailing CFWS:
`if value and value[0] in CFWS_LEADER: token, value = get_cfws(value)`. -/
def cfwsOpt : Nat → List Char → Except PErr (List Token × List Char)
  | 0, _ => .error .fuelOut
  | n + 1, value =>
    match value with
    | c :: _ =>
      if CFWS_LEADER c then do
        let (t, v) ← get_cfws n value
        .ok ([t], v)
      else .ok ([], value)
    | [] => .ok ([], [])

def get_bare_quoted_string : Nat → List Char → Except PErr (Token × List Char)
  | 0, _ => .error .fuelOut
  | n + 1, value =>
    match value with
    | [] => .error .indexError   -- `value[0]` on an empty string
    | c :: rest =>
      if c ≠ '"' then .error .headerParse
      else bqsLoop n rest []

def bqsLoop : Nat → List Char → List Token → Except PErr (Token × List Char)
  | 0, _, _ => .error .fuelOut
  | n + 1, value, acc =>
    match value with
    | [] =>
      .ok (.node .bareQuotedString "bare-quoted-string" acc
        [.invalidHeader "end of header inside quoted string"], [])
    | c :: rest =>
      if c = '"' then .ok (mkNode .bareQuotedString acc [], rest)
      else if WSPchar c then
        let (t, v) := get_fws value
        bqsLoop n v (acc ++ [t])
      else do
        let (t, v) ← get_qcontent value
        bqsLoop n v (acc ++ [t])

def get_comment : Nat → List Char → Except PErr (Token × List Char)
  | 0, _ => .error .fuelOut
  | n + 1, value =>
    match value with
    | [] =>
      -- `if value and value[0] != '('` does not fire on '', and the loop is
      -- skipped, so an empty input yields a comment with an end-of-header defect
      .ok (.node .comment "comment" [] [.invalidHeader "end of header inside comment"], [])
    | c :: rest =>
      if c ≠ '(' then .error .headerParse
      else commentLoop n rest []

def commentLoop : Nat → List Char → List Token → Except PErr (Token × List Char)
  | 0, _, _ => .error .fuelOut
  | n + 1, value, acc =>
    match value with
    | [] =>
      .ok (.node .comment "comment" acc
        [.invalidHeader "end of header inside comment"], [])
    | c :: _ =>
      if c = ')' then .ok (mkNode .comment acc [], value.drop 1)
      else if WSPchar c then
        let (t, v) := get_fws value
        commentLoop n v (acc ++ [t])
      else if c = '(' then do
        let (t, v) ← get_comment n value
        commentLoop n v (acc ++ [t])
      else do
        let (t, v) ← get_qp_ctext value
        commentLoop n v (acc ++ [t])

def get_cfws (n : Nat) (value : List Char) : Except PErr (Token × List Char) :=
  cfwsLoop n value []

def cfwsLoop : Nat → List Char → List Token → Except PErr (Token × List Char)
  | 0, _, _ => .error .fuelOut
  | n + 1, value, acc =>
    match value with
    | c :: _ =>
      if CFWS_LEADER c then
        if WSPchar c then
          let (t, v) := get_fws value
          cfwsLoop n v (acc ++ [t])
        else do
          let (t, v) ← get_comment n value
          cfwsLoop n v (acc ++ [t])
      else .ok (mkNode .cfws acc [], value)
    | [] => .ok (mkNode .cfws acc [], [])

def get_quoted_string : Nat → List Char → Except PErr (Token × List Char)
  | 0, _ => .error .fuelOut
  | n + 1, value => do
    let (pre, value) ← cfwsOpt n value
    let (t, value) ← get_bare_quoted_string n value
    let (post, value) ← cfwsOpt n value
    .ok (mkNode .quotedString (pre ++ [t] ++ post) [], value)

def get_atom : Nat → List Char → Except PErr (Token × List Char)
  | 0, _ => .error .fuelOut
  | n + 1, value => do
    let (pre, value) ← cfwsOpt n value
    match value with
    | c :: _ =>
      if ATOM_ENDS c then .error .headerParse
      else do
        let (t, value) ← get_atext value
        let (post, value) ← cfwsOpt n value
        .ok (mkNode .atom (pre ++ [t] ++ post) [], value)
    | [] => .error .headerParse   -- via `get_atext('')`

def get_dot_atom_text : Nat → List Char → Except PErr (Token × List Char)
  | 0, _ => .error .fuelOut
  | n + 1, value =>
    match value with
    | [] => .error .headerParse
    | c :: _ =>
      if ATOM_ENDS c then .error .headerParse
      else datLoop n value []

def datLoop : Nat → List Char → List Token → Except PErr (Token × List Char)
  | 0, _, _ => .error .fuelOut
  | n + 1, value, acc =>
    match value with
    | [] => datFinish acc []
    | c :: _ =>
      if ATOM_ENDS c then datFinish acc value
      else do
        let (t, value) ← get_atext value
        match value with
        | '.' :: rest => datLoop n rest (acc ++ [t, DOTtok])
        | _ => datLoop n value (acc ++ [t])

def get_dot_atom : Nat → List Char → Except PErr (Token × List Char)
  | 0, _ => .error .fuelOut
  | n + 1, value =>
    match value with
    | [] => .error .indexError   -- unguarded `value[0] in CFWS_LEADER`
    | _ => do
      let (pre, value) ← cfwsOpt n value
      let (t, value) ← get_dot_atom_text n value
      let (post, value) ← cfwsOpt n value
      .ok (mkNode .dotAtom (pre ++ [t] ++ post) [], value)

def get_word : Nat → List Char → Except PErr (Token × List Char)
  | 0, _ => .error .fuelOut
  | n + 1, value =>
    match value with
    | [] => .error .indexError   -- unguarded `value[0] in CFWS_LEADER`
    | c0 :: _ => do
      let (leader, value) ←
        if CFWS_LEADER c0 then do
          let (l, v) ← get_cfws n value
          pure (some l, v)
        else pure ((none : Option Token), value)
      match value with
      | [] => .error .indexError   -- unguarded `value[0]=='"'` after the leader
      | c :: _ => do
        let (token, value) ←
          if c = '"' then get_quoted_string n value
          else if SPECIALSchar c then .error .headerParse
          else get_atom n value
        .ok (spliceLeader leader token, value)

def get_phrase : Nat → List Char → Except PErr (Token × List Char)
  | 0, _ => .error .fuelOut
  | n + 1, value => do
    let r ← tryHP (get_word n value)
    match r with
    | some (t, v) => phraseLoop n v [t] []
    | none => phraseLoop n value [] [.invalidHeader "phrase does not start with word"]

def phraseLoop : Nat → List Char → List Token → List Defect →
    Except PErr (Token × List Char)
  | 0, _, _, _ => .error .fuelOut
  | n + 1, value, acc, defects =>
    match value with
    | [] => .ok (.node .phrase "phrase" acc defects, [])
    | c :: rest =>
      if PHRASE_ENDS c then .ok (.node .phrase "phrase" acc defects, value)
      else if c = '.' then
        phraseLoop n rest (acc ++ [DOTtok])
          (defects ++ [.obsoleteHeader "period in 'phrase'"])
      else do
        let r ← tryHP (get_word n value)
        match r with
        | some (t, v) => phraseLoop n v (acc ++ [t]) defects
        | none =>
          if CFWS_LEADER c then do
            let (t, v) ← get_cfws n value
            phraseLoop n v (acc ++ [t])
              (defects ++ [.obsoleteHeader "comment found without atom"])
          else .error .headerParse   -- the bare `raise`

def get_local_part : Nat → List Char → Except PErr (Token × List Char)
  | 0, _ => .error .fuelOut
  | n + 1, value =>
    match value with
    | [] => .error .indexError   -- unguarded `value[0] in CFWS_LEADER`
    | c0 :: _ => do
      let (leader, value) ←
        if CFWS_LEADER c0 then do
          let (l, v) ← get_cfws n value
          pure (some l, v)
        else pure ((none : Option Token), value)
      match value with
      | [] => .error .headerParse
      | _ => do
        let r ← tryHP (get_dot_atom n value)
        let (token, value) ←
          match r with
          | some tv => pure tv
          | none => get_word n value
        let token := spliceLeader leader token
        match value with
        | c :: _ =>
          if c = '\\' ∨ ¬ PHRASE_ENDS c then do
            let initChildren :=
              if Token.ttype token = "dot-atom" then token.childList else [token]
            let (obsChildren, obsDefects, value) ← obsLpLoop n value initChildren []
            if obsDefects ≠ [] then
              .ok (.node .localPart "local-part"
                [.node .obsLocalPart "invalid-obs-local-part" obsChildren obsDefects]
                [.invalidHeader "local-part is not dot-atom, quoted-string, or obs-local-part"],
                value)
            else
              .ok (.node .localPart "local-part"
                [.node .obsLocalPart "obs-local-part" obsChildren obsDefects]
                [.obsoleteHeader "local-part is not a dot-atom (contains CFWS)"], value)
          else .ok (mkNode .localPart [token] [], value)
        | [] => .ok (mkNode .localPart [token] [], [])

def obsLpLoop : Nat → List Char → List Token → List Defect →
    Except PErr (List Token × List Defect × List Char)
  | 0, _, _, _ => .error .fuelOut
  | n + 1, value, acc, defects =>
    match value with
    | [] => .ok (acc, defects, [])
    | c :: rest =>
      if ¬ (c = '\\' ∨ ¬ PHRASE_ENDS c) then .ok (acc, defects, value)
      else if c = '.' then do
        let (t, v) ← get_word n rest
        obsLpLoop n v (acc ++ [DOTtok, t]) defects
      else if c = '\\' then
        obsLpLoop n rest (acc ++ [mkVT ['\\'] "misplaced-special"])
          (defects ++ [.invalidHeader "'\\' character outside of quoted-string/ccontent"])
      else do
        let defects := defects ++ [Defect.invalidHeader "missing '.' between words"]
        let (t, v) ← get_word n value
        obsLpLoop n v (acc ++ [t]) defects

def get_domain_literal : Nat → List Char → Except PErr (Token × List Char)
  | 0, _ => .error .fuelOut
  | n + 1, value =>
    match value with
    | [] => .error .indexError   -- unguarded `value[0] in CFWS_LEADER`
    | _ => do
      let (pre, value) ← cfwsOpt n value
      match value with
      | [] => .error .headerParse
      | '[' :: rest =>
        match rest with
        | [] =>
          -- `_check_for_early_dl_end` appends the Defect *instance* and a
          -- `]` terminal to the children and returns
          .ok (.node .domainLiteral "domain-literal"
            (pre ++ [Token.defectTok (.invalidHeader "end of input inside domain-literal"),
                     mkVT [']'] "domain-literal-end"]) [], [])
        | c :: _ => do
          let acc := pre ++ [mkVT ['['] "domain-literal-start"]
          let (acc, value) :=
            if WSPchar c then
              let (t, v) := get_fws rest
              (acc ++ [t], v)
            else (acc, rest)
          let (t, value) ← get_dtext value
          let acc := acc ++ [t]
          match value with
          | [] =>
            .ok (.node .domainLiteral "domain-literal"
              (acc ++ [Token.defectTok (.invalidHeader "end of input inside domain-literal"),
                       mkVT [']'] "domain-literal-end"]) [], [])
          | c2 :: _ => do
            let (acc, value) :=
              if WSPchar c2 then
                let (t2, v) := get_fws value
                (acc ++ [t2], v)
              else (acc, value)
            match value with
            | [] =>
              .ok (.node .domainLiteral "domain-literal"
                (acc ++ [Token.defectTok (.invalidHeader "end of input inside domain-literal"),
                         mkVT [']'] "domain-literal-end"]) [], [])
            | ']' :: r2 => do
              let acc := acc ++ [mkVT [']'] "domain-literal-end"]
              let (post, value) ← cfwsOpt n r2
              .ok (.node .domainLiteral "domain-literal" (acc ++ post) [], value)
            | _ => .error .headerParse
      | _ => .error .headerParse

def get_domain : Nat → List Char → Except PErr (Token × List Char)
  | 0, _ => .error .fuelOut
  | n + 1, value =>
    match value with
    | [] => .error .indexError   -- unguarded `value[0] in CFWS_LEADER`
    | c0 :: _ => do
      let (leader, value) ←
        if CFWS_LEADER c0 then do
          let (l, v) ← get_cfws n value
          pure (some l, v)
        else pure ((none : Option Token), value)
      match value with
      | [] => .error .headerParse
      | '[' :: _ => do
        let (t, v) ← get_domain_literal n value
        .ok (mkNode .domain [spliceLeader leader t] [], v)
      | _ => do
        let r ← tryHP (get_dot_atom n value)
        let (token, value) ←
          match r with
          | some tv => pure tv
          | none => get_atom n value
        let token := spliceLeader leader token
        match value with
        | '.' :: _ => do
          let children :=
            if Token.ttype token = "dot-atom" then token.childList else [token]
          let (children, value) ← domObsLoop n value children
          .ok (.node .domain "domain" children
            [.obsoleteHeader "domain is not a dot-atom (contains CFWS)"], value)
        | _ => .ok (mkNode .domain [token] [], value)

def domObsLoop : Nat → List Char → List Token →
    Except PErr (List Token × List Char)
  | 0, _, _ => .error .fuelOut
  | n + 1, value, acc =>
    match value with
    | '.' :: rest => do
      let (t, v) ← get_atom n rest
      domObsLoop n v (acc ++ [DOTtok, t])
    | _ => .ok (acc, value)

def get_addr_spec : Nat → List Char → Except PErr (Token × List Char)
  | 0, _ => .error .fuelOut
  | n + 1, value => do
    let (lp, value) ← get_local_part n value
    match value with
    | '@' :: rest => do
      let (dom, value) ← get_domain n rest
      .ok (mkNode .addrSpec [lp, mkVT ['@'] "address-at-symbol", dom] [], value)
    | _ =>
      .ok (.node .addrSpec "addr-spec" [lp]
        [.invalidHeader "add-spec local part with no domain"], value)

def get_obs_route : Nat → List Char → Except PErr (Token × List Char)
  | 0, _ => .error .fuelOut
  | n + 1, value => do
    let (acc, value) ← obsRouteLoop1 n value []
    match value with
    | '@' :: rest => do
      let (dom, value) ← get_domain n rest
      let (acc, value) ← obsRouteLoop2 n value (acc ++ [RouteComponentMarker, dom])
      match value with
      | ':' :: r2 =>
        .ok (mkNode .obsRoute (acc ++ [mkVT [':'] "end-of-obs-route-marker"]) [], r2)
      | _ => .error .headerParse   -- covers both `not value` and a wrong character
    | _ => .error .headerParse

def obsRouteLoop1 : Nat → List Char → List Token →
    Except PErr (List Token × List Char)
  | 0, _, _ => .error .fuelOut
  | n + 1, value, acc =>
    match value with
    | c :: rest =>
      if CFWS_LEADER c then do
        let (t, v) ← get_cfws n value
        obsRouteLoop1 n v (acc ++ [t])
      else if c = ',' then obsRouteLoop1 n rest (acc ++ [ListSeparator])
      else .ok (acc, value)
    | [] => .ok (acc, [])

def obsRouteLoop2 : Nat → List Char → List Token →
    Except PErr (List Token × List Char)
  | 0, _, _ => .error .fuelOut
  | n + 1, value, acc =>
    match value with
    | ',' :: rest =>
      let acc := acc ++ [ListSeparator]
      match rest with
      | [] => .ok (acc, [])   -- `if not value: break`
      | c :: _ => do
        let (acc, value) ←
          if CFWS_LEADER c then do
            let (t, v) ← get_cfws n rest
            pure (acc ++ [t], v)
          else pure (acc, rest)
        match value with
        | [] => .error .indexError   -- unguarded `value[0] == '@'`
        | '@' :: r2 => do
          let (d, v) ← get_domain n r2
          obsRouteLoop2 n v (acc ++ [RouteComponentMarker, d])
        | _ => obsRouteLoop2 n value acc
    | _ => .ok (acc, value)

def get_angle_addr : Nat → List Char → Except PErr (Token × List Char)
  | 0, _ => .error .fuelOut
  | n + 1, value =>
    match value with
    | [] => .error .indexError   -- unguarded `value[0] in CFWS_LEADER`
    | _ => do
      let (pre, value) ← cfwsOpt n value
      match value with
      | '<' :: rest => do
        let r ← tryHP (get_addr_spec n rest)
        let (mid, routeDefects, value) ←
          match r with
          | some (t, v) => pure ([t], ([] : List Defect), v)
          | none => do
            let r2 ← tryHP (get_obs_route n rest)
            match r2 with
            | some (rt, v) => do
              let (t2, v2) ← get_addr_spec n v
              pure ([rt, t2],
                [Defect.obsoleteHeader "obsolete route specification in angle-addr"], v2)
            | none => .error .headerParse
        let (gtDefects, value) :=
          match value with
          | '>' :: r2 => (([] : List Defect), r2)
          | _ => ([Defect.invalidHeader "missing trailing '>' on angle-addr"], value)
        let (post, value) ← cfwsOpt n value
        .ok (.node .angleAddr "angle-addr"
          (pre ++ [mkVT ['<'] "angle-addr-start"] ++ mid ++
           [mkVT ['>'] "angle-addr-end"] ++ post)
          (routeDefects ++ gtDefects), value)
      | _ => .error .headerParse

def get_display_name : Nat → List Char → Except PErr (Token × List Char)
  | 0, _ => .error .fuelOut
  | n + 1, value => do
    let (ph, value) ← get_phrase n value
    -- `display_name.extend(token[:]); display_name.defects = token.defects[:]`
    .ok (.node .displayName "display-name" ph.childList ph.defects, value)

def get_name_addr : Nat → List Char → Except PErr (Token × List Char)
  | 0, _ => .error .fuelOut
  | n + 1, value =>
    match value with
    | [] => .error .indexError   -- unguarded `value[0] in CFWS_LEADER`
    | _ => do
      let (leader, value) ←
        match value with
        | c :: _ =>
          if CFWS_LEADER c then do
            let (l, v) ← get_cfws n value
            match v with
            | [] => .error .headerParse
            | _ => pure ((some l : Option Token), v)
          else pure ((none : Option Token), value)
        | [] => pure ((none : Option Token), value)
      match value with
      | [] => .error .indexError
      | c :: _ =>
        if c ≠ '<' then
          if PHRASE_ENDS c then .error .headerParse
          else do
            let (dn, value) ← get_display_name n value
            match value with
            | [] => .error .headerParse
            | _ => do
              let dn ←
                match leader with
                | some l => spliceIntoFirstChild l dn
                | none => pure dn
              let (aa, value) ← get_angle_addr n value
              .ok (mkNode .nameAddr [dn, aa] [], value)
        else do
          let (aa, value) ← get_angle_addr n value
          .ok (mkNode .nameAddr [spliceLeader leader aa] [], value)

def get_mailbox : Nat → List Char → Except PErr (Token × List Char)
  | 0, _ => .error .fuelOut
  | n + 1, value => do
    let r ← tryHP (get_name_addr n value)
    let (t, value) ←
      match r with
      | some tv => pure tv
      | none => do
        let r2 ← tryHP (get_addr_spec n value)
        match r2 with
        | some tv => pure tv
        | none => .error .headerParse
    let ds ← allDefects t
    let tt := if ds.any Defect.isInvalidHeader then "invalid-mailbox" else "mailbox"
    .ok (.node .mailbox tt [t] [], value)

def get_invalid_mailbox : Nat → List Char → List Char →
    Except PErr (Token × List Char)
  | 0, _, _ => .error .fuelOut
  | n + 1, value, endchars => invMbLoop n value endchars []

def invMbLoop : Nat → List Char → List Char → List Token →
    Except PErr (Token × List Char)
  | 0, _, _, _ => .error .fuelOut
  | n + 1, value, endchars, acc =>
    match value with
    | [] => .ok (mkNode .invalidMailbox acc [], [])
    | c :: rest =>
      if endchars.contains c then .ok (mkNode .invalidMailbox acc [], value)
      else if PHRASE_ENDS c then
        invMbLoop n rest endchars (acc ++ [mkVT [c] "misplaced-special"])
      else do
        let (t, v) ← get_phrase n value
        invMbLoop n v endchars (acc ++ [t])

def get_mailbox_list (n : Nat) (value : List Char) :
    Except PErr (Token × List Char) :=
  mblLoop n value [] []

def mblLoop : Nat → List Char → List Token → List Defect →
    Except PErr (Token × List Char)
  | 0, _, _, _ => .error .fuelOut
  | n + 1, value, acc, defects =>
    match value with
    | [] => .ok (.node .mailboxList "mailbox-list" acc defects, [])
    | ';' :: _ => .ok (.node .mailboxList "mailbox-list" acc defects, value)
    | c :: _ => do
      let r ← tryHP (get_mailbox n value)
      let (acc, defects, value) ←
        match r with
        | some (t, v) => pure (acc ++ [t], defects, v)
        | none =>
          if CFWS_LEADER c then do
            let (l, v) ← get_cfws n value
            match v with
            | [] =>
              pure (acc ++ [l],
                defects ++ [Defect.obsoleteHeader "empty element in mailbox-list"],
                ([] : List Char))
            | c2 :: _ =>
              if c2 = ',' ∨ c2 = ';' then
                pure (acc ++ [l],
                  defects ++ [Defect.obsoleteHeader "empty element in mailbox-list"], v)
              else do
                let (t, v2) ← get_invalid_mailbox n v [',', ';']
                pure (acc ++ [spliceLeader (some l) t],
                  defects ++ [Defect.invalidHeader "invalid mailbox in mailbox-list"], v2)
          else if c = ',' then
            pure (acc, defects ++ [Defect.obsoleteHeader "empty element in mailbox-list"],
              value)
          else do
            let (t, v) ← get_invalid_mailbox n value [',', ';']
            -- `leader` is always None on this path, so `token[:0] = [leader]`
            -- never runs here
            pure (acc ++ [t],
              defects ++ [Defect.invalidHeader "invalid mailbox in mailbox-list"], v)
      let (acc, defects, value) ←
        match value with
        | [] => pure (acc, defects, ([] : List Char))
        | c2 :: _ =>
          if c2 ≠ ',' ∧ c2 ≠ ';' then do
            let (t2, v2) ← get_invalid_mailbox n value [',', ';']
            let acc ← retagExtendLast acc t2.childList
            pure (acc, defects ++ [Defect.invalidHeader "invalid mailbox in mailbox-list"], v2)
          else pure (acc, defects, value)
      match value with
      | ',' :: r2 => mblLoop n r2 (acc ++ [ListSeparator]) defects
      | _ => mblLoop n value acc defects

def get_group_list : Nat → List Char → Except PErr (Token × List Char)
  | 0, _ => .error .fuelOut
  | n + 1, value =>
    match value with
    | [] =>
      .ok (.node .groupList "group-list" []
        [.invalidHeader "end of header before group-list"], [])
    | c :: _ =>
      if CFWS_LEADER c then do
        let (l, v) ← get_cfws n value
        match v with
        | [] =>
          .ok (.node .groupList "group-list" [l]
            [.invalidHeader "end of header in group-list"], [])
        | ';' :: _ => .ok (mkNode .groupList [l] [], v)
        | _ => glTail n (some l) v
      else glTail n none value

def glTail : Nat → Option Token → List Char → Except PErr (Token × List Char)
  | 0, _, _ => .error .fuelOut
  | n + 1, leader, value => do
    let (mbl, value) ← get_mailbox_list n value
    let mbs ← tok_mailboxes mbl
    if mbs.length = 0 then
      let children := (match leader with | some l => [l] | none => []) ++ mbl.childList
      .ok (.node .groupList "group-list" children
        [.obsoleteHeader "group-list with empty entries"], value)
    else
      .ok (mkNode .groupList [spliceLeader leader mbl] [], value)

def get_group : Nat → List Char → Except PErr (Token × List Char)
  | 0, _ => .error .fuelOut
  | n + 1, value => do
    let (dn, value) ← get_display_name n value
    match value with
    | ':' :: rest =>
      match rest with
      | ';' :: r2 =>
        .ok (mkNode .group
          [dn, mkVT [':'] "group-display-name-terminator",
           mkVT [';'] "group-terminator"] [], r2)
      | _ => do
        let (gl, value) ← get_group_list n rest
        let defects :=
          if value.isEmpty then [Defect.invalidHeader "end of header in group"] else []
        match value with
        | [] => .error .indexError   -- unguarded `value[0] != ';'` after the defect
        | ';' :: r2 => do
          let (post, value) ← cfwsOpt n r2
          .ok (.node .group "group"
            ([dn, mkVT [':'] "group-display-name-terminator", gl,
              mkVT [';'] "group-terminator"] ++ post) defects, value)
        | _ => .error .headerParse
    | _ => .error .headerParse

def get_address : Nat → List Char → Except PErr (Token × List Char)
  | 0, _ => .error .fuelOut
  | n + 1, value => do
    let r ← tryHP (get_group n value)
    match r with
    | some (t, v) => .ok (mkNode .address [t] [], v)
    | none => do
      let r2 ← tryHP (get_mailbox n value)
      match r2 with
      | some (t, v) => .ok (mkNode .address [t] [], v)
      | none => .error .headerParse

def get_address_list (n : Nat) (value : List Char) :
    Except PErr (Token × List Char) :=
  adlLoop n value [] []

def adlLoop : Nat → List Char → List Token → List Defect →
    Except PErr (Token × List Char)
  | 0, _, _, _ => .error .fuelOut
  | n + 1, value, acc, defects =>
    match value with
    | [] => .ok (.node .addressList "address-list" acc defects, [])
    | c :: _ => do
      let r ← tryHP (get_address n value)
      let (acc, defects, value) ←
        match r with
        | some (t, v) => pure (acc ++ [t], defects, v)
        | none =>
          if CFWS_LEADER c then do
            let (l, v) ← get_cfws n value
            match v with
            | [] =>
              pure (acc ++ [l],
                defects ++ [Defect.obsoleteHeader "address-list entry with no content"],
                ([] : List Char))
            | ',' :: _ =>
              pure (acc ++ [l],
                defects ++ [Defect.obsoleteHeader "address-list entry with no content"], v)
            | _ => do
              let (t, v2) ← get_invalid_mailbox n v [',']
              pure (acc ++ [mkNode .address [spliceLeader (some l) t] []],
                defects ++ [Defect.invalidHeader "invalid address in address-list"], v2)
          else if c = ',' then
            pure (acc,
              defects ++ [Defect.obsoleteHeader "empty element in address-list"], value)
          else do
            let (t, v) ← get_invalid_mailbox n value [',']
            -- `leader` is always None on this path
            pure (acc ++ [mkNode .address [t] []],
              defects ++ [Defect.invalidHeader "invalid address in address-list"], v)
      let (acc, defects, value) ←
        match value with
        | [] => pure (acc, defects, ([] : List Char))
        | c2 :: _ =>
          if c2 ≠ ',' then do
            let (t2, v2) ← get_invalid_mailbox n value [',']
            let acc ← retagExtendLastInner acc t2.childList
            pure (acc,
              defects ++ [Defect.invalidHeader "invalid address in address-list"], v2)
          else pure (acc, defects, value)
      match value with
      | _ :: r2 => adlLoop n r2 (acc ++ [ListSeparator]) defects
      | [] => .ok (.node .addressList "address-list" acc defects, [])

end

/-! ## `header.py`: Address/Group records and typed headers -/

/-- `header.Address`: a str subclass whose extra fields are the display
name, local part ("username"), domain (each `''` when the accessor gave
`None`) and the defects attributable to the mailbox. -/
structure AddressRec where
  strVal : String
  name : String
  username : String
  domain : String
  defects : List Defect
deriving DecidableEq, Repr

/-- `header.Group`: a str subclass with the group's display name (kept as
`None` for a bare address, exactly as `Group.__new__` stores it) and its
addresses. -/
structure GroupRec where
  strVal : String
  name : Option String
  addresses : List AddressRec
deriving DecidableEq, Repr

/-- `AddressHeader.parse`: parse the whole value as an address-list
(`assert not value` on a nonempty remainder), build one `Group` per
`address` token — `str(addr).lstrip()` as its string, `addr.display_name`,
and one `Address` per element of `addr.all_mailboxes` — and return
(groups, `address_list.all_defects`, the groups joined with `', '` as the
decoded value). -/
def addressHeaderParse (n : Nat) (value : List Char) :
    Except PErr (List GroupRec × List Defect × String) := do
  let (address_list, rest) ← get_address_list n value
  if rest ≠ [] then .error .assertionError
  else do
    let groups ← (tok_addresses address_list).mapM fun addr => do
      let dn ← acc_display_name addr
      let mbs ← tok_all_mailboxes addr
      let addrs ← mbs.mapM fun mb => do
        let mbdn ← acc_display_name mb
        let lp ← acc_local_part mb
        let dom ← acc_domain mb
        let mbAll ← allDefects mb
        pure { strVal := String.mk (pyLstrip (tokenStr mb)),
               name := (mbdn.map String.mk).getD "",
               username := (lp.map String.mk).getD "",
               domain := (dom.map String.mk).getD "",
               defects := mbAll : AddressRec }
      pure { strVal := String.mk (pyLstrip (tokenStr addr)),
             name := dn.map String.mk, addresses := addrs : GroupRec }
    let listAll ← allDefects address_list
    pure (groups, listAll,
      String.intercalate ", " (groups.map GroupRec.strVal))

/-- The `ecre` regex of `header.py`, `(?=[ \t]|$)` lookahead under
`re.MULTILINE`: the encoded word must be followed by space, tab, a line
end, or the end of the string. -/
def ecreLookahead (rest : List Char) : Bool :=
  match rest with
  | [] => true
  | c :: _ => c = ' ' ∨ c = '\t' ∨ c = '\n'

/-- Scan for the non-greedy `(?P<encoded>.*?)\?=` tail of `ecre`: the
encoded text may not contain a newline (`.` without `DOTALL`), and a `?=`
whose lookahead fails is absorbed and the scan continues. -/
def ecreEnc : List Char → Bool
  | '?' :: '=' :: rest => ecreLookahead rest || ecreEnc rest
  | '\n' :: _ => false
  | _ :: rest => ecreEnc rest
  | [] => false

/-- Match `ecre` at one position: `=?`, a charset without `?`, `?`, `q` or
`b` (case-insensitive), `?`, then the encoded tail. -/
def ecreAt (s : List Char) : Bool :=
  match s with
  | '=' :: '?' :: rest =>
    let cs := rest.takeWhile fun c => c ≠ '?'
    (match rest.drop cs.length with
     | '?' :: q :: '?' :: r2 =>
       (q = 'q' ∨ q = 'Q' ∨ q = 'b' ∨ q = 'B') ∧ ecreEnc r2
     | _ => false)
  | _ => false

/-- `ecre.search`. -/
def ecreSearch : List Char → Bool
  | [] => false
  | c :: rest => ecreAt (c :: rest) || ecreSearch rest

def isLineBreak (c : Char) : Bool :=
  c = '\n' ∨ c = '\r' ∨ c = '\x0b' ∨ c = '\x0c' ∨ c = '\x1c' ∨ c = '\x1d' ∨
    c = '\x1e' ∨ c = '\x85' ∨ c = '\u2028' ∨ c = '\u2029'

def pySplitlinesGo : List Char → List Char → List (List Char)
  | [], cur => [cur]
  | '\r' :: '\n' :: rest, cur =>
    cur :: (match rest with | [] => [] | _ => pySplitlinesGo rest [])
  | c :: rest, cur =>
    if isLineBreak c then
      cur :: (match rest with | [] => [] | _ => pySplitlinesGo rest [])
    else pySplitlinesGo rest (cur ++ [c])

/-- Python `str.splitlines`. -/
def pySplitlines (s : List Char) : List (List Char) :=
  match s with
  | [] => []
  | _ => pySplitlinesGo s []

/-- The specialized header classes the factory combines with `BaseHeader`. -/
inductive HeaderKind where
  | unstructured
  | uniqueUnstructured
  | date
  | uniqueDate
  | address
  | uniqueAddress
  | singleAddress
  | uniqueSingleAddress
deriving DecidableEq, Repr

/-- `_default_header_map` lookup with the `UnstructuredHeader` default
(`HeaderFactory.__getitem__` with `use_default_map=True`). -/
def headerRegistryKind (lname : String) : HeaderKind :=
  if lname = "subject" then .uniqueUnstructured
  else if lname = "date" then .uniqueDate
  else if lname = "resent-date" then .date
  else if lname = "orig-date" then .uniqueDate
  else if lname = "sender" then .uniqueSingleAddress
  else if lname = "resent-sender" then .singleAddress
  else if lname = "to" then .uniqueAddress
  else if lname = "resent-to" then .address
  else if lname = "cc" then .uniqueAddress
  else if lname = "resent-cc" then .address
  else if lname = "bcc" then .uniqueAddress
  else if lname = "resent-bcc" then .address
  else if lname = "from" then .uniqueAddress
  else if lname = "resent-from" then .address
  else if lname = "reply-to" then .uniqueAddress
  else .unstructured

/-- What a header class's `parse` leaves in `kwds`: the decoded string,
the defect list, and for address headers the groups. -/
structure ParseOut where
  decoded : String
  defects : List Defect
  groups : Option (List GroupRec)
deriving DecidableEq, Repr

/-- Modelled from the spec: `DateHeader.parse` depends on
`utils.parsedate_tz` / `utils.format_datetime`, which are not among the
provided sources.  The in-source branch is kept exactly — an empty value
records a `HeaderMissingRequiredValue` defect and decodes to `''`; a
nonempty value, whose timestamp round-trip lives in the missing module, is
modelled as decoding to itself with no defects.  No theorem below touches
the nonempty case. -/
def dateHeaderParse (value : List Char) : ParseOut :=
  match value with
  | [] => ⟨"", [.headerMissingRequiredValue], none⟩
  | _ => ⟨String.mk value, [], none⟩

/-- Dispatch of `cls.parse(unfolded, kwds)`.  `UnstructuredHeader.parse`
sets only `kwds['decoded']` (the token's defects are *not* copied into the
header's defect list); `AddressHeader.parse` replaces the defect list with
`address_list.all_defects`. -/
def headerKindParse (n : Nat) : HeaderKind → List Char → Except PErr ParseOut
  | .unstructured, v => do
    let t ← get_unstructured n v
    pure ⟨String.mk (tokenStr t), [], none⟩
  | .uniqueUnstructured, v => do
    let t ← get_unstructured n v
    pure ⟨String.mk (tokenStr t), [], none⟩
  | .date, v => pure (dateHeaderParse v)
  | .uniqueDate, v => pure (dateHeaderParse v)
  | k, v => do
    let _ := k
    let (gs, dfs, dec) ← addressHeaderParse n v
    pure ⟨dec, dfs, some gs⟩

/-- The header object `BaseHeader.__new__` builds (its str value, `name`,
`source`, `value` and `defects` attributes, plus the `groups` the address
`init` stores). -/
structure HeaderRec where
  strVal : String
  name : String
  source : Option String
  value : String
  defects : List Defect
  groups : Option (List GroupRec)
deriving DecidableEq, Repr

/-- `BaseHeader.__new__` on a string `unparsed` with `unfolded=None` (the
`Policy.make_header` path used below): a multi-line or encoded-word value
is unfolded by joining its lines, `source` ends up `None` either way, the
kind's `parse` fills the defect list, and the str value is the decoded
string only when `use_decoded` is set. -/
def baseHeaderNew (n : Nat) (kind : HeaderKind) (name : String)
    (unparsed : String) (use_decoded : Bool) : Except PErr HeaderRec := do
  let lines := pySplitlines unparsed.data
  let has_ec := ecreSearch unparsed.data
  let unfolded := if lines.length > 1 ∨ has_ec then lines.flatten else unparsed.data
  let po ← headerKindParse n kind unfolded
  pure { strVal := if use_decoded then po.decoded else unparsed,
         name := name, source := none, value := po.decoded,
         defects := po.defects, groups := po.groups }

/-! ## `policy.py` -/

/-- The settable attributes of `Policy` (the per-instance
`header_factory` object is modelled separately for the attribute-protocol
claims below). -/
structure Policy where
  raise_on_defect : Bool
  linesep : String
  must_be_7bit : Bool
  max_line_length : Option Nat
  decoded_headers : Option Bool
deriving DecidableEq, Repr

def defaultPolicy : Policy :=
  { raise_on_defect := false, linesep := "\n", must_be_7bit := false,
    max_line_length := some 78, decoded_headers := none }

/-- `strict = default.clone(raise_on_defect=True)`. -/
def strictPolicy : Policy := { defaultPolicy with raise_on_defect := true }

/-- `Policy.register_defect`: append to the object's defect list. -/
def register_defect (objDefects : List Defect) (d : Defect) : List Defect :=
  objDefects ++ [d]

/-- `Policy.handle_defect`: raise the defect under `raise_on_defect`,
otherwise record it via `register_defect`. -/
def handle_defect (p : Policy) (objDefects : List Defect) (d : Defect) :
    Except Defect (List Defect) :=
  if p.raise_on_defect then .error d
  else .ok (register_defect objDefects d)

/-- `Policy.make_header(name, unparsed)`: forward to the header factory
(name lower-cased for the registry lookup) together with the policy's
`decoded_headers` flag (`None` is falsy).  Note that the policy's
`raise_on_defect` plays no part here. -/
def policy_make_header (n : Nat) (p : Policy) (name : String)
    (unparsed : String) : Except PErr HeaderRec :=
  baseHeaderNew n (headerRegistryKind (String.mk (lowerStr name.data)))
    name unparsed (p.decoded_headers.getD false)

/-! ## `header.py`: the value formatter / line folder

Only the path for charsets with `header_encoding is None` (ASCII-safe,
e.g. `us-ascii`) is embedded: the other branch delegates to
`charset.header_encode_lines`, which lives in the charset module outside
the provided sources.  All headers in the theorems below carry `us-ascii`
chunks. -/

/-- `_Accumulator`: the (fws, part) pairs of the current line, plus the
initial size accounting for the header name on the first line. -/
structure Accumulator where
  initial_size : Nat
  parts : List (List Char × List Char)
deriving DecidableEq, Repr

def Accumulator.lengthA (a : Accumulator) : Nat :=
  a.initial_size + (a.parts.map fun p => p.1.length + p.2.length).sum

def Accumulator.strA (a : Accumulator) : List Char :=
  (a.parts.map fun p => p.1 ++ p.2).flatten

/-- `pop`: the last pair, or `('', '')` on an empty accumulator. -/
def Accumulator.popA (a : Accumulator) :
    (List Char × List Char) × Accumulator :=
  match a.parts.getLast? with
  | none => (([], []), a)
  | some p => (p, { a with parts := a.parts.dropLast })

def Accumulator.pushA (a : Accumulator) (fws s : List Char) : Accumulator :=
  { a with parts := a.parts ++ [(fws, s)] }

/-- `pop_from(i)`: the pairs from index `i` on, removed. -/
def Accumulator.popFrom (a : Accumulator) (i : Nat) :
    List (List Char × List Char) × Accumulator :=
  (a.parts.drop i, { a with parts := a.parts.take i })

def Accumulator.resetA (startval : List (List Char × List Char)) : Accumulator :=
  { initial_size := 0, parts := startval }

/-- `is_onlyws`: no initial size and either no parts or a nonempty all-space
string (`''.isspace()` is false in Python). -/
def Accumulator.is_onlyws (a : Accumulator) : Bool :=
  a.initial_size = 0 ∧
    (a.parts = [] ∨ (a.strA ≠ [] ∧ a.strA.all pyIsSpace))

structure VFormatter where
  maxlen : Nat
  continuation_ws : List Char
  splitchars : List Char
  lines : List (List Char)
  current_line : Accumulator
deriving DecidableEq, Repr

/-- `_ValueFormatter.newline`: drop a trailing `(' ', '')` transition,
flush a nonempty current line — merging an all-whitespace line into the
previous completed line, where `self._lines[-1]` raises `IndexError` when
no line was completed yet — and reset the accumulator. -/
def VFormatter.newline (f : VFormatter) : Except PErr VFormatter := do
  let (eol, cur) := f.current_line.popA
  let cur := if eol ≠ ([' '], []) then cur.pushA eol.1 eol.2 else cur
  if cur.lengthA > 0 then
    if cur.is_onlyws then
      match f.lines.getLast? with
      | none => .error .indexError
      | some last =>
        pure { f with lines := f.lines.dropLast ++ [last ++ cur.strA],
                      current_line := Accumulator.resetA [] }
    else
      pure { f with lines := f.lines ++ [cur.strA],
                    current_line := Accumulator.resetA [] }
  else pure { f with current_line := Accumulator.resetA [] }

def VFormatter.add_transition (f : VFormatter) : VFormatter :=
  { f with current_line := f.current_line.pushA [' '] [] }

/-- One split-candidate test of `_append_chunk`: for a whitespace split
character, the fws of pair `i` must start with it; otherwise the previous
pair's text must end with it. -/
def splitMatchAt (parts : List (List Char × List Char)) (ch : Char) (i : Nat) : Bool :=
  (pyIsSpace ch &&
    (match parts[i]? with
     | some (fws, _) => decide (fws ≠ []) && decide (fws.head? = some ch)
     | none => false)) ||
  (match parts[i - 1]? with
   | some (_, prev) => decide (prev ≠ []) && decide (prev.getLast? = some ch)
   | none => false)

/-- `for i in range(self._current_line.part_count()-1, 0, -1)`: the largest
index that matches, if any. -/
def findIdxForCh (parts : List (List Char × List Char)) (ch : Char) : Option Nat :=
  (List.range parts.length).reverse.find? fun i =>
    decide (0 < i) && splitMatchAt parts ch i

/-- The split-character priority loop of `_append_chunk`. -/
def findSplitIndex (splitchars : List Char) (parts : List (List Char × List Char)) :
    Option Nat :=
  match splitchars with
  | [] => none
  | ch :: rest =>
    match findIdxForCh parts ch with
    | some i => some i
    | none => findSplitIndex rest parts

/-- `_ValueFormatter._append_chunk`: push the pair; on overflow find the
best split point (never re-checking the remainder), else emit the overlong
last token on a line of its own when a header name occupies the first
line. -/
def appendChunk (f : VFormatter) (fws s : List Char) : Except PErr VFormatter := do
  let f := { f with current_line := f.current_line.pushA fws s }
  if f.current_line.lengthA > f.maxlen then
    match findSplitIndex f.splitchars f.current_line.parts with
    | some i =>
      let (remainder, cur) := f.current_line.popFrom i
      pure { f with lines := f.lines ++ [cur.strA],
                    current_line := Accumulator.resetA remainder }
    | none =>
      let (p, cur) := f.current_line.popA
      if cur.initial_size > 0 then do
        let f2 ← VFormatter.newline { f with current_line := cur }
        let fws2 := if p.1 = [] then [' '] else p.1
        pure { f2 with current_line := f2.current_line.pushA fws2 p.2 }
      else pure { f with current_line := cur.pushA p.1 p.2 }
  else pure f

/-- Inner state machine of `re.split("([ \t]+)", ...)` followed by the
pair-building of `_ascii_split`. -/
def splitPairsGo : List Char → List Char → List Char →
    List (List Char × List Char)
  | [], fws, txt => [(fws, txt)]
  | c :: rest, fws, txt =>
    if WSPchar c then
      if txt = [] then splitPairsGo rest (fws ++ [c]) []
      else (fws, txt) :: splitPairsGo rest [c] []
    else splitPairsGo rest fws (txt ++ [c])

/-- The (fws, part) pairs `_ascii_split` feeds to `_append_chunk`. -/
def asciiSplitPairs (s : List Char) : List (List Char × List Char) :=
  match s with
  | [] => []
  | _ => splitPairsGo s [] []

/-- `_ValueFormatter.feed` for a charset with no header encoding:
`self._ascii_split(fws, string, self._splitchars)`. -/
def VFormatter.feedAscii (f : VFormatter) (fws s : List Char) :
    Except PErr VFormatter :=
  (asciiSplitPairs (fws ++ s)).foldlM (fun f p => appendChunk f p.1 p.2) f

/-- The `_embeded_header` regex `\n[^ \t]+:` applied after a newline:
at least one character that is neither space nor tab, then a colon. -/
def embAfterNL : List Char → Nat → Bool
  | [], _ => false
  | c :: rest, k =>
    if c = ':' ∧ 1 ≤ k then true
    else if c = ' ' ∨ c = '\t' then false
    else embAfterNL rest (k + 1)

/-- `_embeded_header.search(value)`: the pattern must match starting at
some newline of the value. -/
def embeded_header_search : List Char → Bool
  | [] => false
  | c :: rest => (c = '\n' && embAfterNL rest 0) || embeded_header_search rest

/-- A `Header` whose chunks all carry the `us-ascii` charset:
`_normalize` collapses them into one chunk joined by spaces. -/
structure HeaderA where
  chunks : List (List Char)
  headerlen : Nat
  continuation_ws : List Char
  maxlinelen : Nat
deriving DecidableEq, Repr

def headerNormalize (chunks : List (List Char)) : List (List Char) :=
  match chunks with
  | [] => []
  | _ => [List.intercalate [' '] chunks]

/-- `Header.encode` up to the point where `value = formatter._str(linesep)`
has been computed: normalize, map a `maxlinelen` of 0 to the huge internal
constant, feed every line of every chunk (continuation lines keep their
own leading whitespace on the ASCII path), and join the completed lines
with the separator. -/
def header_format_value (h : HeaderA) (splitchars : List Char)
    (maxlinelen : Option Nat) (linesep : List Char) :
    Except PErr (List Char) := do
  let chunks := headerNormalize h.chunks
  let maxlen := match maxlinelen with | some m => m | none => h.maxlinelen
  let maxlen := if maxlen = 0 then 1000000 else maxlen
  let f : VFormatter :=
    { maxlen := maxlen, continuation_ws := h.continuation_ws,
      splitchars := splitchars, lines := [],
      current_line := { initial_size := h.headerlen, parts := [] } }
  let f ← chunks.foldlM (fun f string => do
      let lines := pySplitlines string
      let f ←
        match lines with
        | [] => f.feedAscii [] []
        | l0 :: _ => f.feedAscii [] l0
      let f ← (lines.drop 1).foldlM (fun f line => do
          let f ← f.newline
          let sline := pyLstrip line
          let fws := line.take (line.length - sline.length)
          f.feedAscii fws sline) f
      let f ← if 1 < lines.length then f.newline else pure f
      pure f.add_transition) f
  let f ← f.newline
  pure (List.intercalate linesep f.lines)

/-- `Header.encode`: the folded value, rejected with a `HeaderParseError`
when the embedded-header scan matches. -/
def header_encode (h : HeaderA) (splitchars : List Char)
    (maxlinelen : Option Nat) (linesep : List Char) :
    Except PErr (List Char) := do
  let value ← header_format_value h splitchars maxlinelen linesep
  if embeded_header_search value then .error .headerParse
  else pure value

/-! ## `policy.py`: the attribute protocol of `_PolicyBase`

`__setattr__` always raises `AttributeError` (choosing between two
messages), while `__delattr__` is not overridden, so deletion uses
Python's default object behaviour: it removes the name from the instance
`__dict__` (raising `AttributeError` when the instance itself does not
carry it, even if the class does), after which the class attribute becomes
visible again through normal lookup.  The module itself relies on this:
`default = Policy()` stores a fresh `header_factory` on the instance and
`del default.header_factory` then exposes the class-level default. -/

inductive PolVal where
  | b (x : Bool)
  | s (x : String)
  | num (x : Option Nat)
  | noneV
  | factory (id : Nat)
deriving DecidableEq, Repr

/-- The class attributes of `Policy` (source lines 159-164); the
class-level `header_factory` instance is tagged 0. -/
def policyClassAttr (name : String) : Option PolVal :=
  if name = "raise_on_defect" then some (.b false)
  else if name = "linesep" then some (.s "\n")
  else if name = "must_be_7bit" then some (.b false)
  else if name = "max_line_length" then some (.num (some 78))
  else if name = "decoded_headers" then some .noneV
  else if name = "header_factory" then some (.factory 0)
  else none

/-- A `Policy` instance: its `__dict__` in insertion order. -/
structure PyPolicy where
  inst : List (String × PolVal)
deriving DecidableEq, Repr

def lookupInst (inst : List (String × PolVal)) (name : String) : Option PolVal :=
  (inst.find? fun p => p.1 = name).map Prod.snd

/-- Attribute lookup: instance `__dict__` first, then the class. -/
def pyGetattr (p : PyPolicy) (name : String) : Option PolVal :=
  match lookupInst p.inst name with
  | some v => some v
  | none => policyClassAttr name

def pyHasattr (p : PyPolicy) (name : String) : Bool := (pyGetattr p name).isSome

/-- `_PolicyBase.__setattr__`: unconditionally raises, with the read-only
message for a visible attribute and the no-attribute message otherwise. -/
def pySetattr (p : PyPolicy) (name : String) (v : PolVal) :
    Except String PyPolicy :=
  let _ := v
  if pyHasattr p name then .error "object attribute is read-only"
  else .error "object has no attribute"

/-- Default `__delattr__` (not intercepted by `_PolicyBase`). -/
def pyDelattr (p : PyPolicy) (name : String) : Except String PyPolicy :=
  if (lookupInst p.inst name).isSome then
    .ok ⟨p.inst.filter fun q => q.1 ≠ name⟩
  else .error "object has no attribute"

/-- `default = Policy()`: `Policy.__init__` with no keywords stores a fresh
`HeaderFactory` (tag 1) on the instance. -/
def policyDefaultBeforeDel : PyPolicy := ⟨[("header_factory", .factory 1)]⟩

/-- `del default.header_factory` (module line 228). -/
def policyDefaultObj : Except String PyPolicy :=
  pyDelattr policyDefaultBeforeDel "header_factory"

/-! ## Concrete inputs shared by the claim theorems -/

/-- Enough fuel for every concrete parse below (the inputs are under 60
characters and the grammar consumes at least one character between
recursive descents). -/
def FUEL : Nat := 300

def fredInput : List Char := "Fred <a@b.org>, !!!, x@y.com".data

def fredAddr1 : AddressRec :=
  { strVal := "Fred <a@b.org>", name := "Fred", username := "a",
    domain := "b.org", defects := [] }

def fredAddr2 : AddressRec :=
  { strVal := "!!!", name := "", username := "!!!", domain := "",
    defects := [.invalidHeader "add-spec local part with no domain"] }

def fredAddr3 : AddressRec :=
  { strVal := "x@y.com", name := "", username := "x", domain := "y.com",
    defects := [] }

def fredGroup1 : GroupRec :=
  { strVal := "Fred <a@b.org>", name := none, addresses := [fredAddr1] }

def fredGroup2 : GroupRec :=
  { strVal := "!!!", name := none, addresses := [fredAddr2] }

def fredGroup3 : GroupRec :=
  { strVal := "x@y.com", name := none, addresses := [fredAddr3] }

/-- Claim C1, amended: the malformed middle entry of the Fred input is
isolated — the list parses to three groups, the middle mailbox is retagged
`invalid-mailbox`, and the flanking valid entries survive — but the entry
is captured verbatim (`username` is the raw text `!!!`, not empty) and its
defect is attached to the addr-spec token, not to the address-list token,
whose own defect list stays empty. -/
theorem c1 :
    addressHeaderParse FUEL fredInput =
      .ok ([fredGroup1, fredGroup2, fredGroup3],
           [Defect.invalidHeader "add-spec local part with no domain"],
           "Fred <a@b.org>, !!!, x@y.com") ∧
    ((get_address_list FUEL fredInput).map fun r =>
        (Token.defects r.1, (tok_addresses r.1).map fun a =>
           a.childList.map Token.ttype)) =
      .ok ([], [["mailbox"], ["invalid-mailbox"], ["mailbox"]]) :=
  ⟨rfl, rfl⟩

/-- Counterexample to C1 as stated: the invalid entry's accessors do not
yield nothing — the derived record's `username` is the verbatim text
`!!!`, not empty — and the invalid-address defect is not attached to the
list (the address-list token's own defect list is empty). -/
theorem c1_counterexample :
    (addressHeaderParse FUEL fredInput).map
        (fun r => r.1.map fun g => g.addresses.map AddressRec.username) =
      .ok [["a"], ["!!!"], ["x"]] ∧
    ("!!!" : String) ≠ "" ∧
    (get_address_list FUEL fredInput).map (fun r => Token.defects r.1) =
      .ok [] :=
  ⟨rfl, by decide, rfl⟩

/-- Claim C2 (a bug in the code): the entry points do raise.  `<` drives
`get_angle_addr` into `get_addr_spec` on an empty rest, whose
`get_local_part` evaluates `value[0]` and raises `IndexError`, which
escapes `Policy.make_header`; and an encoded word with an unknown
content-transfer-encoding key raises `KeyError` out of
`get_unstructured`. -/
theorem c2 :
    get_address_list FUEL "<".data = .error .indexError ∧
    policy_make_header FUEL defaultPolicy "to" "<" = .error .indexError ∧
    get_unstructured FUEL "=?x?x?x?=".data = .error .keyError :=
  ⟨rfl, rfl, rfl⟩

/-- Claim C3, amended: `handle_defect` is the policy's raise-or-record
switch — under `raise_on_defect` it raises the defect, otherwise it
appends it via `register_defect` — but the header parsing path never
consults it: `Policy.make_header` forwards to the header factory without
reading `raise_on_defect`, so a strict policy parses a defective value
exactly as the default policy does. -/
theorem c3 :
    (∀ (p : Policy) (ds : List Defect) (d : Defect),
        p.raise_on_defect = true → handle_defect p ds d = .error d) ∧
    (∀ (p : Policy) (ds : List Defect) (d : Defect),
        p.raise_on_defect = false → handle_defect p ds d = .ok (ds ++ [d])) ∧
    (∀ (n : Nat) (name unparsed : String),
        policy_make_header n strictPolicy name unparsed =
          policy_make_header n defaultPolicy name unparsed) := by
  refine ⟨?_, ?_, fun n name unparsed => rfl⟩
  · intro p ds d h
    simp [handle_defect, h]
  · intro p ds d h
    simp [handle_defect, h, register_defect]

theorem c3_witness :
    strictPolicy.raise_on_defect = true ∧
    handle_defect strictPolicy [] .invalidBase64Padding =
      .error .invalidBase64Padding :=
  ⟨rfl, c3.1 strictPolicy [] .invalidBase64Padding rfl⟩

def g2rec : GroupRec :=
  { strVal := "!!!", name := none,
    addresses := [{ strVal := "!!!", name := "", username := "!!!",
                    domain := "",
                    defects := [.invalidHeader "add-spec local part with no domain"] }] }

/-- Counterexample to C3 as stated: under the strict policy
(`raise_on_defect = true`) a defective header value is parsed to a normal
header object with the defect recorded in its defect list — nothing is
raised, because no code on this path calls `handle_defect`. -/
theorem c3_counterexample :
    strictPolicy.raise_on_defect = true ∧
    policy_make_header FUEL strictPolicy "to" "!!!" =
      .ok { strVal := "!!!", name := "to", source := none, value := "!!!",
            defects := [.invalidHeader "add-spec local part with no domain"],
            groups := some [g2rec] } ∧
    [Defect.invalidHeader "add-spec local part with no domain"] ≠ [] :=
  ⟨rfl, rfl, by decide⟩

/-- Claim C4 (a bug in the code): on input `b"A"` (one data character,
so length mod 4 is 1) every retry `b64decode(b"A" + b"=" * i)` fails in
`binascii` (a lone data character can never complete a quantum), the
`for` loop exhausts, and — because the `else` clause is attached to the
`try` rather than the `for` — the function falls out of the loop and
raises `AssertionError` instead of returning (bpo-27397).  A length-3
input such as `b"dmk"` does follow the documented path: pad, record the
padding defect, decode. -/
theorem c4 :
    decode_b ("A".data.map Char.toNat) = .error .assertionError ∧
    decode_b ("dmk".data.map Char.toNat) =
      .ok ("vi".data.map Char.toNat, [.invalidBase64Padding]) :=
  ⟨rfl, rfl⟩

theorem qSub_id (bs : List Byte) (h : ∀ b ∈ bs, b ≠ 61) : qSub bs = bs := by
  induction bs using qSub.induct with
  | case1 => rfl
  | case2 h1 h2 rest hx ih => exact absurd rfl (h 61 (by simp))
  | case3 h1 h2 rest hx ih => exact absurd rfl (h 61 (by simp))
  | case4 b rest hb ih =>
    simp only [qSub]
    rw [ih fun x hx => h x (List.mem_cons_of_mem _ hx)]

theorem qUnderscore_id (bs : List Byte) (h : ∀ b ∈ bs, b ≠ 95) :
    qUnderscore bs = bs := by
  unfold qUnderscore
  induction bs with
  | nil => rfl
  | cons b rest ih =>
    simp only [List.map_cons, if_neg (h b (List.mem_cons_self b rest))]
    rw [ih fun x hx => h x (List.mem_cons_of_mem _ hx)]

theorem decode_q_id (bs : List Byte) (h : ∀ b ∈ bs, b ≠ 61 ∧ b ≠ 95) :
    decode_q bs = (bs, []) := by
  rw [decode_q, qUnderscore_id bs fun b hb => (h b hb).2,
      qSub_id bs fun b hb => (h b hb).1]

/-- Claim C5: the two cited encoded words decode exactly as claimed, with
empty defect lists; and in general `decode_q` returns a quoted-printable
payload without `=` or `_` bytes unchanged with no defects. -/
theorem c5 :
    ew_decode "=?us-ascii?q?foo?=".data = .ok ("foo".data, []) ∧
    ew_decode "=?us-ascii?b?dmk=?=".data = .ok ("vi".data, []) ∧
    ∀ (bs : List Byte), (∀ b ∈ bs, b ≠ 61 ∧ b ≠ 95) → decode_q bs = (bs, []) :=
  ⟨rfl, rfl, decode_q_id⟩

theorem c5_witness :
    (∀ b ∈ ([102, 111, 111] : List Byte), b ≠ 61 ∧ b ≠ 95) ∧
    decode_q [102, 111, 111] = ([102, 111, 111], []) :=
  ⟨by decide, c5.2.2 [102, 111, 111] (by decide)⟩

/-- Claim C6 (a bug in the code): the `all_defects` recursion holds only
on subtrees whose children all carry an `all_defects` attribute — a
terminal yields its local list, and a composite node whose children's
combined lists evaluate to `ds` yields its local list followed by `ds`
(so the local list is a prefix) — but a `Defect` instance appended among
the children by `_check_for_early_dl_end` has no such attribute, so
`all_defects` raises `AttributeError` there, and the parse of `a@[`
really builds such a tree: `get_mailbox`'s invalid-mailbox scan crashes,
and the `AttributeError` escapes `get_address_list`,
`AddressHeader.parse` and `Policy.make_header`. -/
theorem c6 :
    get_address_list FUEL "a@[".data = .error .attributeError ∧
    addressHeaderParse FUEL "a@[".data = .error .attributeError ∧
    policy_make_header FUEL defaultPolicy "to" "a@[" = .error .attributeError ∧
    (∀ d : Defect, allDefects (Token.defectTok d) = .error .attributeError) ∧
    (∀ (ws : Bool) (s : List Char) (tt : String) (d : List Defect),
        allDefects (Token.term ws s tt d) = .ok d) ∧
    (∀ (k : NodeKind) (tt : String) (cs : List Token) (d ds : List Defect),
        allDefectsList cs = .ok ds →
        allDefects (Token.node k tt cs d) = .ok (d ++ ds)) ∧
    (∀ (t : Token) (ds : List Defect),
        allDefects t = .ok ds → Token.defects t <+: ds) := by
  refine ⟨rfl, rfl, rfl, fun _ => rfl, fun _ _ _ _ => rfl, ?_, ?_⟩
  · intro k tt cs d ds h
    unfold allDefects
    rw [h]
  · intro t ds h
    cases t with
    | term ws s tt d =>
      cases h
      exact List.prefix_refl ds
    | node k tt cs d =>
      simp only [allDefects] at h
      cases hcs : allDefectsList cs with
      | ok l =>
        rw [hcs] at h
        cases h
        exact ⟨l, rfl⟩
      | error e =>
        rw [hcs] at h
        cases h
    | defectTok d => cases h

theorem c6_witness :
    allDefectsList [Token.term false [] "t" [Defect.undecodableBytes]] =
      .ok [Defect.undecodableBytes] ∧
    allDefects (Token.node .atom "atom"
        [Token.term false [] "t" [Defect.undecodableBytes]]
        [Defect.invalidBase64Padding]) =
      .ok ([Defect.invalidBase64Padding] ++ [Defect.undecodableBytes]) :=
  ⟨rfl, c6.2.2.2.2.2.1 .atom "atom"
    [Token.term false [] "t" [Defect.undecodableBytes]]
    [Defect.invalidBase64Padding] [Defect.undecodableBytes] rfl⟩

theorem tokensAnn_map (cs : List Token) : tokensAnn cs = cs.map tokenAnn := by
  induction cs with
  | nil => rfl
  | cons t ts ih => simp [tokensAnn, ih]

theorem annsValue_map (cs : List Token) :
    annsValue (tokensAnn cs) = (cs.map tokenValue).flatten := by
  rw [tokensAnn_map, annsValue, List.map_map]
  rfl

theorem ann_str (t : Token) : (tokenAnn t).str = tokenStr t := by
  cases t <;> rfl

/-- Claim C7, amended: the value of a composite node is the concatenation
of its children's values for every class that does not override `value` —
the overriding classes are cfws and comment (one space), bare-quoted-string
(children rendered verbatim), and addr-spec / local-part / display-name
(which strip whitespace around their content); whitespace terminals and
cfws/comment nodes each contribute exactly one space; inside a
bare-quoted-string the children's source text, whitespace included, is
preserved verbatim. -/
theorem c7 :
    (∀ (k : NodeKind) (tt : String) (cs : List Token) (d : List Defect),
        k ≠ .cfws → k ≠ .comment → k ≠ .bareQuotedString → k ≠ .addrSpec →
        k ≠ .localPart → k ≠ .displayName →
        tokenValue (.node k tt cs d) = (cs.map tokenValue).flatten) ∧
    (∀ (tt : String) (cs : List Token) (d : List Defect),
        tokenValue (.node .cfws tt cs d) = [' '] ∧
        tokenValue (.node .comment tt cs d) = [' ']) ∧
    (∀ (s : List Char) (tt : String) (d : List Defect),
        tokenValue (.term true s tt d) = [' ']) ∧
    (∀ (tt : String) (cs : List Token) (d : List Defect),
        tokenValue (.node .bareQuotedString tt cs d) = (cs.map tokenStr).flatten) := by
  refine ⟨?_, fun _ _ _ => ⟨rfl, rfl⟩, fun _ _ _ => rfl, ?_⟩
  · intro k tt cs d h1 h2 h3 h4 h5 h6
    cases k <;> first
      | (exact absurd rfl (by assumption))
      | (show annsValue (tokensAnn cs) = _; exact annsValue_map cs)
  · intro tt cs d
    show ((tokensAnn cs).map Ann.str).flatten = _
    rw [tokensAnn_map, List.map_map]
    congr 1
    exact List.map_congr_left fun t _ => ann_str t

theorem c7_witness :
    tokenValue (Token.node .atom "atom" [Token.term false "ab".data "atext" []] []) =
      (([Token.term false "ab".data "atext" []]).map tokenValue).flatten :=
  c7.1 .atom "atom" [Token.term false "ab".data "atext" []] []
    (by decide) (by decide) (by decide) (by decide) (by decide) (by decide)

/-- The addr-spec token of `get_address_list "foo @ex.com"`: the first
child of the first mailbox of the first address. -/
def fooAddrSpec : Option Token :=
  match get_address_list FUEL "foo @ex.com".data with
  | .ok (t, _) =>
    match t.childList with
    | addr :: _ =>
      match addr.childList with
      | mb :: _ => mb.childList.head?
      | [] => none
    | [] => none
  | .error _ => none

/-- Counterexample to C7 as stated: the addr-spec node's value is not the
concatenation of its children's values — `AddrSpec.value` strips the
whitespace around `@`, so the node derives `foo@ex.com` while its
children's values concatenate to `foo @ex.com`. -/
theorem c7_counterexample :
    (fooAddrSpec.map fun t => (Token.ttype t, tokenValue t, tokensValue t.childList)) =
      some ("addr-spec", "foo@ex.com".data, "foo @ex.com".data) ∧
    "foo@ex.com".data ≠ "foo @ex.com".data :=
  ⟨rfl, by decide⟩

def c8BadHeader : HeaderA := ⟨["aaaa; bb ccccccccccccccccc".data], 0, [' '], 78⟩

def c8GoodHeader : HeaderA :=
  ⟨["the quick brown fox jumps over a lazy dog again and again".data], 0, [' '], 78⟩

/-- Claim C8, amended: on this multi-word value every `Header.encode`
line respects the 20-, 40- and 100-column limits, and a maximum line
length of 0 is mapped to a huge internal constant (so the value is
emitted unfolded); but the limit can also be exceeded by lines holding
several tokens, because `_Accumulator.push` re-splits an overlong line
only once and emits the remainder without checking it again. -/
theorem c8 :
    ((header_encode c8GoodHeader ";, \t".data (some 20) "\n".data).map fun v =>
        (v.splitOn '\n').all fun l => l.length ≤ 20) = .ok true ∧
    ((header_encode c8GoodHeader ";, \t".data (some 40) "\n".data).map fun v =>
        (v.splitOn '\n').all fun l => l.length ≤ 40) = .ok true ∧
    ((header_encode c8GoodHeader ";, \t".data (some 100) "\n".data).map fun v =>
        (v.splitOn '\n').all fun l => l.length ≤ 100) = .ok true ∧
    header_encode c8GoodHeader ";, \t".data (some 0) "\n".data =
      .ok "the quick brown fox jumps over a lazy dog again and again".data :=
  ⟨rfl, rfl, rfl, rfl⟩

/-- Counterexample to C8 as stated: with a limit of 20 the second output
line is 21 characters long although it carries two separately splittable
tokens (so the single-unsplittable-token exception does not apply): after
the first split `_append_chunk` pushes the remainder as one chunk without
re-checking its length. -/
theorem c8_counterexample :
    header_encode c8BadHeader ";, \t".data (some 20) "\n".data =
      .ok "aaaa;\n bb ccccccccccccccccc".data ∧
    (" bb ccccccccccccccccc".data).length = 21 ∧
    (asciiSplitPairs " bb ccccccccccccccccc".data).length = 2 :=
  ⟨rfl, by decide, by decide⟩

/-- The condition the `_embeded_header` regex `\n[^ \t]+:` expresses: a
newline, one or more characters none of which is a space or tab, then a
colon. -/
def embCond (v : List Char) : Prop :=
  ∃ a b c, v = a ++ '\n' :: (b ++ ':' :: c) ∧ b ≠ [] ∧ ∀ ch ∈ b, ch ≠ ' ' ∧ ch ≠ '\t'

theorem embAfterNL_iff (cs : List Char) (k : Nat) :
    embAfterNL cs k = true ↔
      ∃ b c, cs = b ++ ':' :: c ∧ (∀ ch ∈ b, ch ≠ ' ' ∧ ch ≠ '\t') ∧ 1 ≤ k + b.length := by
  induction cs generalizing k with
  | nil =>
    simp only [embAfterNL, Bool.false_eq_true, false_iff]
    rintro ⟨b, c, hbc, -, -⟩
    cases b <;> simp at hbc
  | cons ch rest ih =>
    rw [embAfterNL]
    by_cases h1 : ch = ':' ∧ 1 ≤ k
    · simp only [if_pos h1, true_iff]
      exact ⟨[], rest, by simp [h1.1], by simp, by simpa using h1.2⟩
    · rw [if_neg h1]
      by_cases h2 : ch = ' ' ∨ ch = '\t'
      · simp only [if_pos h2, Bool.false_eq_true, false_iff]
        rintro ⟨b, c, hbc, hall, hk⟩
        cases b with
        | nil =>
          simp at hbc
          obtain ⟨hch, -⟩ := hbc
          subst hch
          rcases h2 with h | h <;> exact absurd h (by decide)
        | cons b0 b' =>
          simp at hbc
          obtain ⟨hch, -⟩ := hbc
          have hb0 := hall b0 (by simp)
          rw [hch] at h2
          rcases h2 with h | h
          · exact hb0.1 h
          · exact hb0.2 h
      · rw [if_neg h2]
        rw [ih (k + 1)]
        constructor
        · rintro ⟨b', c, hbc, hall, -⟩
          refine ⟨ch :: b', c, by simp [hbc], ?_, by simp only [List.length_cons]; omega⟩
          intro x hx
          rcases List.mem_cons.1 hx with h | h
          · subst h
            exact ⟨fun hc => h2 (Or.inl hc), fun hc => h2 (Or.inr hc)⟩
          · exact hall x h
        · rintro ⟨b, c, hbc, hall, hk⟩
          cases b with
          | nil =>
            simp at hbc
            exact absurd ⟨hbc.1, by simpa using hk⟩ h1
          | cons b0 b' =>
            simp at hbc
            exact ⟨b', c, hbc.2, fun x hx => hall x (List.mem_cons_of_mem _ hx), by omega⟩

theorem embSearch_iff (v : List Char) : embeded_header_search v = true ↔ embCond v := by
  induction v with
  | nil =>
    simp only [embeded_header_search, Bool.false_eq_true, false_iff, embCond]
    rintro ⟨a, b, c, hv, -, -⟩
    cases a <;> simp at hv
  | cons ch rest ih =>
    rw [embeded_header_search]
    simp only [Bool.or_eq_true, Bool.and_eq_true, decide_eq_true_eq]
    constructor
    · rintro (⟨hch, hafter⟩ | h)
      · obtain ⟨b, c, hbc, hall, hk⟩ := (embAfterNL_iff rest 0).1 hafter
        refine ⟨[], b, c, by simp [hch, hbc], ?_, hall⟩
        intro hnil
        rw [hnil] at hk
        simp at hk
      · obtain ⟨a, b, c, hv, hb, hall⟩ := ih.1 h
        exact ⟨ch :: a, b, c, by simp [hv], hb, hall⟩
    · rintro ⟨a, b, c, hv, hb, hall⟩
      cases a with
      | nil =>
        simp at hv
        left
        refine ⟨hv.1, (embAfterNL_iff rest 0).2 ⟨b, c, hv.2, hall, ?_⟩⟩
        cases b with
        | nil => exact absurd rfl hb
        | cons x xs => simp
      | cons a0 a' =>
        simp at hv
        exact Or.inr (ih.2 ⟨a', b, c, hv.2, hb, hall⟩)

/-- Claim C9: whenever the formatter produces a value, `Header.encode`
returns it joined as-is unless the embedded-header scan fires, in which
case it fails with a parse error; and the scan fires exactly when the
value contains a newline followed by one or more non-space-non-tab
characters and a colon. -/
theorem c9 (h : HeaderA) (sc : List Char) (ml : Option Nat) (ls : List Char)
    (v : List Char) (hv : header_format_value h sc ml ls = .ok v) :
    (header_encode h sc ml ls =
      if embeded_header_search v then .error .headerParse else .ok v) ∧
    (embeded_header_search v = true ↔ embCond v) := by
  refine ⟨?_, embSearch_iff v⟩
  unfold header_encode
  rw [hv]
  rfl

def c9Header : HeaderA := ⟨["Subj tail".data], 0, [' '], 78⟩

theorem c9_witness :
    header_format_value c9Header " ;,".data none "\n".data = .ok "Subj tail".data ∧
    header_encode c9Header " ;,".data none "\n".data =
      (if embeded_header_search "Subj tail".data then Except.error PErr.headerParse
       else Except.ok "Subj tail".data) :=
  ⟨rfl, (c9 c9Header " ;,".data none "\n".data "Subj tail".data rfl).1⟩

theorem lookupInst_filter (l : List (String × PolVal)) (name : String) :
    lookupInst (List.filter (fun q => q.1 ≠ name) l) name = none := by
  have h : List.find? (fun p => p.1 = name)
      (List.filter (fun q => q.1 ≠ name) l) = none := by
    rw [List.find?_eq_none]
    intro x hx
    have hmem := List.of_mem_filter hx
    simp at hmem ⊢
    exact hmem
  simp [lookupInst, h]

/-- Claim C10: `__setattr__` on a policy never succeeds (for any name,
known or unknown), while deletion of an instance attribute is not
intercepted: it succeeds, removes the name from the instance dict, and
subsequent lookup sees the class-level default again — exactly what the
module-level `del default.header_factory` relies on, turning the
instance's factory (tag 1) into the class's (tag 0). -/
theorem c10 (p : PyPolicy) (name : String)
    (hname : (lookupInst p.inst name).isSome = true) :
    (∀ (pz : PyPolicy) (n : String) (v : PolVal) (q : PyPolicy),
        pySetattr pz n v ≠ .ok q) ∧
    pyDelattr p name = .ok ⟨p.inst.filter fun q => q.1 ≠ name⟩ ∧
    lookupInst (p.inst.filter fun q => q.1 ≠ name) name = none ∧
    pyGetattr ⟨p.inst.filter fun q => q.1 ≠ name⟩ name = policyClassAttr name ∧
    policyDefaultObj = .ok ⟨[]⟩ ∧
    pyGetattr ⟨[]⟩ "header_factory" = some (.factory 0) ∧
    pyGetattr policyDefaultBeforeDel "header_factory" = some (.factory 1) := by
  refine ⟨?_, ?_, lookupInst_filter p.inst name, ?_, rfl, rfl, rfl⟩
  · intro pz n v q hq
    unfold pySetattr at hq
    split at hq <;> simp at hq
  · simp [pyDelattr, hname]
  · unfold pyGetattr
    rw [lookupInst_filter]

theorem c10_witness :
    (lookupInst policyDefaultBeforeDel.inst "header_factory").isSome = true ∧
    pyDelattr policyDefaultBeforeDel "header_factory" =
      .ok ⟨policyDefaultBeforeDel.inst.filter fun q => q.1 ≠ "header_factory"⟩ :=
  ⟨rfl, (c10 policyDefaultBeforeDel "header_factory" rfl).2.1⟩
